import Mathlib

namespace DroidNode

/-!
# DroidNode controller/agent: shallow embedding and verification

This file embeds the decision logic of the DroidNode VLM controller
(`clients/llm-controller/controller.py`) and the ACTL agent
(`tools/actl_agent.py`) in Lean 4 and proves properties of it.

Modelling conventions:
* Python `int` is `ℤ` (or `ℕ` where the source value is provably non-negative),
  Python `float` is `ℚ` (the float values appearing in the embedded code paths
  are small integer ratios, so exact rationals are faithful for the
  comparisons performed).
* Python true division `/` on numbers is `ℚ` division; `//` and `%` on
  non-negative ints are `Nat` division and modulus.
* `math.log` is modelled as an uninterpreted parameter `logf : ℚ → ℚ`;
  all grid theorems are proved for every `logf`, so nothing depends on its
  values.
* Strings are processed as `List Char`; the regular expressions of the source
  are unfolded into the deterministic scanners they denote on their patterns.
* Network calls are modelled as oracles (functions passed in as parameters):
  the transport result of each tap attempt and the UI state fetched after it.
-/

/-- Embeds `_clamp(v, lo, hi)` from `controller.py`: `max(lo, min(hi, v))`. -/
def clamp (v lo hi : ℤ) : ℤ := max lo (min hi v)

/-- Embeds `_clip(v, low, high)` from `actl_agent.py`: `max(low, min(high, v))`. -/
def clip (v low high : ℤ) : ℤ := max low (min high v)

/-- Clamp a natural-number region index into `[lo, hi]`. -/
def clampNat (v lo hi : ℕ) : ℕ := max lo (min hi v)

/-! ## Grid Partitioner (`_choose_adaptive_grid`, controller.py lines 421-448) -/

/-- One candidate row/column decomposition: `(rows, cols, cells, cell_aspect,
log_error)` as built inside `_choose_adaptive_grid`. -/
structure GridCand where
  rows : ℕ
  cols : ℕ
  cells : ℕ
  cellAspect : ℚ
  logError : ℚ
  deriving Repr, DecidableEq

/-- The candidate list of `_choose_adaptive_grid`: all `(rows, cols)` in
`[minSeg, maxSeg]²` whose cell width `width/cols` and cell height
`height/rows` (true division) both exceed 1 pixel.  `logf` stands for
`math.log`. -/
def gridCandidates (logf : ℚ → ℚ) (width height : ℤ) (minSeg maxSeg : ℕ) :
    List GridCand :=
  (List.range' minSeg (maxSeg + 1 - minSeg)).flatMap fun (rows : ℕ) =>
    (List.range' minSeg (maxSeg + 1 - minSeg)).filterMap fun (cols : ℕ) =>
      let cellW : ℚ := (width : ℚ) / (cols : ℚ)
      let cellH : ℚ := (height : ℚ) / (rows : ℚ)
      if cellW ≤ 1 ∨ cellH ≤ 1 then none
      else
        let cellAspect := cellW / cellH
        some { rows := rows, cols := cols, cells := rows * cols,
               cellAspect := cellAspect,
               logError := |logf (max (1 / 1000000) cellAspect)| }

/-- Python `min(list, key=key)` over a non-empty list (head and tail given):
keeps the first element whose key is minimal, comparing keys
lexicographically. -/
def argminFirst (key : GridCand → ℚ × ℚ) : GridCand → List GridCand → GridCand
  | best, [] => best
  | best, c :: rest =>
      if (key c).1 < (key best).1 ∨
          ((key c).1 = (key best).1 ∧ (key c).2 < (key best).2) then
        argminFirst key c rest
      else
        argminFirst key best rest

/-- Embeds `_choose_adaptive_grid(width, height, min_segments, max_segments,
target_log_error)`: among candidates within the log-error threshold pick the
one minimizing `(cells, log_error)`; otherwise the one minimizing
`(log_error, cells)`; if no candidate exists at all default to 3×3. -/
def chooseAdaptiveGrid (logf : ℚ → ℚ) (width height : ℤ)
    (minSeg : ℕ := 3) (maxSeg : ℕ := 12) (targetLogError : ℚ := 1 / 5) :
    GridCand :=
  let candidates := gridCandidates logf width height minSeg maxSeg
  match candidates with
  | [] =>
      let aspect : ℚ := (width : ℚ) / max 1 (height : ℚ)
      ⟨3, 3, 9, aspect, |logf (max (1 / 1000000) aspect)|⟩
  | c :: cs =>
      let nearSquare := (c :: cs).filter fun k => k.logError ≤ targetLogError
      match nearSquare with
      | [] => argminFirst (fun k => (k.logError, (k.cells : ℚ))) c cs
      | n :: ns => argminFirst (fun k => ((k.cells : ℚ), k.logError)) n ns

/-! ## Region Mapper (`_region_box`, `_region_row_col`, `_parse_regions_value`,
`_looks_like_horizontal_span_target`, `_rect_cover_from_regions`,
`_point_from_region_ratio`, controller.py lines 451-560) -/

/-- A pixel rectangle `left/top/right/bottom` as used by the controller. -/
structure PixelBox where
  left : ℕ
  top : ℕ
  right : ℕ
  bottom : ℕ
  deriving Repr, DecidableEq

/-- Embeds `_clamp(region, 1, rows * cols) - 1` as a natural index. -/
def regionIndex (region : ℤ) (rows cols : ℕ) : ℕ :=
  (clamp region 1 (rows * cols) - 1).toNat

/-- Embeds `_region_row_col(region, rows, cols)`. -/
def regionRowCol (region : ℤ) (rows cols : ℕ) : ℕ × ℕ :=
  (regionIndex region rows cols / cols, regionIndex region rows cols % cols)

/-- Embeds `_region_box(region, rows, cols, width, height)`. -/
def regionBox (region : ℤ) (rows cols width height : ℕ) : PixelBox :=
  let r := regionIndex region rows cols
  let row := r / cols
  let col := r % cols
  let cellW := width / cols
  let cellH := height / rows
  { left := col * cellW
    top := row * cellH
    right := if col = cols - 1 then width else (col + 1) * cellW
    bottom := if row = rows - 1 then height else (row + 1) * cellH }

/-- Decimal digit runs of a string, as `re.findall(r"\d+", s)` parsed to
integers.  The accumulator holds the run currently being read. -/
def digitRunsAux : List Char → Option ℕ → List ℕ
  | [], none => []
  | [], some acc => [acc]
  | c :: rest, none =>
      if c.isDigit then digitRunsAux rest (some (c.toNat - 48))
      else digitRunsAux rest none
  | c :: rest, some acc =>
      if c.isDigit then digitRunsAux rest (some (acc * 10 + (c.toNat - 48)))
      else acc :: digitRunsAux rest none

def digitRuns (s : String) : List ℕ := digitRunsAux s.data none

/-- The JSON value found under the planner's `regions` key: absent, a list of
numbers, or free text (other shapes parse to the empty list, like the
source's final `return []`). -/
inductive RegionsValue where
  | absent
  | list (xs : List ℤ)
  | str (s : String)
  deriving Repr, DecidableEq

/-- Embeds `_parse_regions_value(value)`. -/
def parseRegionsValue : RegionsValue → List ℤ
  | .absent => []
  | .list xs => xs
  | .str s => (digitRuns s).map Int.ofNat

/-- Embeds `_looks_like_horizontal_span_target(target)`: the target text,
lower-cased, contains one of the bar/field keywords. -/
def looksLikeHorizontalSpanTarget (target : String) : Bool :=
  let t := target.data.map Char.toLower
  ["input", "field", "search", "bar", "message", "textbox", "text box",
    "输入", "搜索", "消息", "聊天"].any fun k => decide (k.data <:+: t)

/-- The planner fields consumed by `_rect_cover_from_regions`: the `regions`
value, the already-converted `region` int (`_safe_int(planner.get("region",
0), 0)`), and the `target` text. -/
structure PlannerRegions where
  regions : RegionsValue
  region : ℤ
  target : String

/-- Result of `_rect_cover_from_regions`: the (possibly heuristically
expanded) normalized regions, the covering rectangle's regions, its pixel
box, and the row/col ranges. -/
structure RectCover where
  normalized : List ℕ
  rectRegions : List ℕ
  box : PixelBox
  minRow : ℕ
  maxRow : ℕ
  minCol : ℕ
  maxCol : ℕ
  deriving Repr

/-- Python `min` over a non-empty list (0 for the impossible empty case). -/
def listMinN : List ℕ → ℕ
  | [] => 0
  | x :: xs => xs.foldl min x

/-- Python `max` over a non-empty list (0 for the impossible empty case). -/
def listMaxN : List ℕ → ℕ
  | [] => 0
  | x :: xs => xs.foldl max x

/-- The normalization phase of `_rect_cover_from_regions`: raw region
collection, positivity filter, clamp into `[1, cells]`, `sorted(set(...))`,
central-region default, and the single-region bar-span expansion. -/
def normalizedRegions (p : PlannerRegions) (rows cols : ℕ) : List ℕ :=
  let cells := rows * cols
  let regionsRaw := parseRegionsValue p.regions ++
    (if 0 < p.region then [p.region] else [])
  let normalized0 :=
    (((regionsRaw.filter (0 < ·)).map
        (fun r => (clamp r 1 (cells : ℤ)).toNat)).dedup).insertionSort (· ≤ ·)
  let normalized1 :=
    if normalized0 = [] then
      [clampNat ((rows / 2) * cols + (cols / 2) + 1) 1 cells]
    else normalized0
  match normalized1, looksLikeHorizontalSpanTarget p.target with
  | [v], true =>
      let row := (regionRowCol (v : ℤ) rows cols).1
      (List.range cols).map fun c => row * cols + c + 1
  | l, _ => l

/-- Embeds `_rect_cover_from_regions(planner, rows, cols, width, height)`. -/
def rectCoverFromRegions (p : PlannerRegions) (rows cols width height : ℕ) :
    RectCover :=
  let normalized := normalizedRegions p rows cols
  let rowCols := normalized.map fun (r : ℕ) => regionRowCol (r : ℤ) rows cols
  let minRow := listMinN (rowCols.map Prod.fst)
  let maxRow := listMaxN (rowCols.map Prod.fst)
  let minCol := listMinN (rowCols.map Prod.snd)
  let maxCol := listMaxN (rowCols.map Prod.snd)
  let rectRegions := (List.range' minRow (maxRow + 1 - minRow)).flatMap
    fun rr => (List.range' minCol (maxCol + 1 - minCol)).map
      fun cc => rr * cols + cc + 1
  let cellW := width / cols
  let cellH := height / rows
  { normalized := normalized
    rectRegions := rectRegions
    box :=
      { left := minCol * cellW
        top := minRow * cellH
        right := if maxCol = cols - 1 then width else (maxCol + 1) * cellW
        bottom := if maxRow = rows - 1 then height else (maxRow + 1) * cellH }
    minRow := minRow
    maxRow := maxRow
    minCol := minCol
    maxCol := maxCol }

/-- Embeds `_point_from_region_ratio(region, rows, cols, width, height, xr, yr)`.
`int(...)` truncation equals `Int.floor` here because its argument is
non-negative. -/
def pointFromRegionRatio (region : ℤ) (rows cols width height : ℕ)
    (xr yr : ℚ) : ℤ × ℤ :=
  let b := regionBox region rows cols width height
  let xr := max 0 (min 1 xr)
  let yr := max 0 (min 1 yr)
  ((b.left : ℤ) + ⌊xr * ((max 1 ((b.right : ℤ) - (b.left : ℤ) - 1) : ℤ) : ℚ)⌋,
   (b.top : ℤ) + ⌊yr * ((max 1 ((b.bottom : ℤ) - (b.top : ℤ) - 1) : ℤ) : ℚ)⌋)

/-! ## State Comparator (`UiState`, `_compute_screen_ahash`,
`_hamming_distance`, `_states_similar`, actl_agent.py lines 95-102 and
710-749) -/

/-- The `UiState` dataclass of `actl_agent.py`. -/
structure UiState where
  source : String
  text : String
  imageB64 : String := ""
  stateSig : String := ""
  screenAhash : Option ℕ := none
  deriving Repr, DecidableEq

/-- Bit-population count with explicit fuel so that it reduces by `decide`
(`int.bit_count` in the source); the fuel `n` covers all bits of `n`. -/
def popCountAux : ℕ → ℕ → ℕ
  | 0, _ => 0
  | _ + 1, 0 => 0
  | fuel + 1, n => n % 2 + popCountAux fuel (n / 2)

def popCountNat (n : ℕ) : ℕ := popCountAux n n

/-- Embeds `_hamming_distance(a, b) = (a ^ b).bit_count()`.  The perceptual hashes
built by `_compute_screen_ahash` are non-negative, so `ℕ` is faithful. -/
def hammingDistance (a b : ℕ) : ℕ := popCountNat (a ^^^ b)

/-- Embeds `_states_similar(prev, curr, ahash_threshold)`. -/
def statesSimilar : Option UiState → Option UiState → ℤ → Bool × String
  | none, _, _ => (false, "missing_state")
  | some _, none, _ => (false, "missing_state")
  | some prev, some curr, thr =>
    if prev.source ≠ curr.source then (false, "source_changed")
    else if curr.source = "xml" then
      if prev.stateSig = curr.stateSig then (true, "xml_sig_equal")
      else (false, "xml_sig_changed")
    else
      match prev.screenAhash, curr.screenAhash with
      | some a, some b =>
          let dist := hammingDistance a b
          (decide ((dist : ℤ) ≤ thr), "ahash_dist=" ++ toString dist)
      | _, _ =>
          if prev.stateSig = curr.stateSig then (true, "shot_sig_equal")
          else (false, "shot_sig_changed")

/-! ## Tap Executor (`_tap_with_retry`, actl_agent.py lines 752-816)

Network effects are oracles: `click i` is the transport result of the `i`-th
attempt and `after i` the UI state fetched after a successful `i`-th
attempt.  The result carries the list of points actually clicked so that
"exactly N attempts occur" is expressible. -/

/-- The fixed offset ladder of `_tap_with_retry`. -/
def tapOffsets : List (ℤ × ℤ) :=
  [(0, 0), (50, 0), (-50, 0), (0, 50), (0, -50), (80, 80), (-80, 80)]

/-- The tuple returned by `_tap_with_retry` (`any_success`, `last_body`,
`changed`, `final_point`), plus the instrumented list of clicked points. -/
structure TapRetryResult where
  anySuccess : Bool
  lastBody : String
  changed : Bool
  finalPoint : ℤ × ℤ
  attempted : List (ℤ × ℤ)
  deriving Repr, DecidableEq

/-- The `for i in range(attempts)` loop of `_tap_with_retry`, with the
remaining iteration count as fuel and the loop-carried state explicit. -/
def tapRetryLoop (click : ℕ → Bool × String) (after : ℕ → UiState)
    (base : UiState) (x y xmin ymin xmax ymax thr : ℤ) :
    ℕ → ℕ → Bool → String → (ℤ × ℤ) → List (ℤ × ℤ) → TapRetryResult
  | 0, _, anySuccess, lastBody, finalPoint, attempted =>
      { anySuccess := anySuccess, lastBody := lastBody, changed := false,
        finalPoint := finalPoint, attempted := attempted }
  | remaining + 1, i, anySuccess, lastBody, finalPoint, attempted =>
      let off := tapOffsets.getD i (0, 0)
      let tx := clip (x + off.1) xmin xmax
      let ty := clip (y + off.2) ymin ymax
      let res := click i
      if res.1 then
        if (statesSimilar (some base) (some (after i)) thr).1 then
          tapRetryLoop click after base x y xmin ymin xmax ymax thr
            remaining (i + 1) true res.2 (tx, ty) (attempted ++ [(tx, ty)])
        else
          { anySuccess := true, lastBody := res.2, changed := true,
            finalPoint := (tx, ty), attempted := attempted ++ [(tx, ty)] }
      else
        tapRetryLoop click after base x y xmin ymin xmax ymax thr
          remaining (i + 1) anySuccess res.2 (tx, ty) (attempted ++ [(tx, ty)])

/-- Embeds `_tap_with_retry(...)`: `attempts = min(max_retry + 1, len(offsets))`,
then the retry loop starting from `(any_success, last_body, final_point) =
(False, "", (x, y))`. -/
def tapWithRetry (click : ℕ → Bool × String) (after : ℕ → UiState)
    (base : UiState) (x y xmin ymin xmax ymax thr : ℤ) (maxRetry : ℕ) :
    TapRetryResult :=
  tapRetryLoop click after base x y xmin ymin xmax ymax thr
    (min (maxRetry + 1) tapOffsets.length) 0 false "" (x, y) []

/-! ## Answer Parser, function-call grammar (`_parse_quoted`, `_parse_pair`,
`_parse_int`, `parse_action`, actl_agent.py lines 377-444)

The regular expressions of the source are deterministic on their patterns
(each capture is bounded by a character class excluding its closing
delimiter), so they are embedded as explicit scanners over `List Char`;
`re.search` is "try the pattern at every suffix, leftmost first". -/

/-- Python `\s`: space, tab, newline, carriage return, form feed, vertical
tab. -/
def isWsChar (c : Char) : Bool :=
  c == ' ' || c == '\t' || c == '\n' || c == '\r' ||
    c == '\x0b' || c == '\x0c'

def dropWs (l : List Char) : List Char := l.dropWhile isWsChar

/-- Python `str.strip()`. -/
def stripChars (l : List Char) : List Char :=
  ((l.dropWhile isWsChar).reverse.dropWhile isWsChar).reverse

/-- Match a literal prefix, returning the rest. -/
def matchLit : List Char → List Char → Option (List Char)
  | [], l => some l
  | _ :: _, [] => none
  | p :: ps, c :: cs => if p = c then matchLit ps cs else none

/-- Match a literal prefix case-insensitively (for `re.IGNORECASE`). -/
def matchLitCI : List Char → List Char → Option (List Char)
  | [], l => some l
  | _ :: _, [] => none
  | p :: ps, c :: cs =>
      if p.toLower = c.toLower then matchLitCI ps cs else none

/-- Embeds `re.search`: try the matcher at every suffix, leftmost match first. -/
def searchSuffixes (p : List Char → Option α) : List Char → Option α
  | [] => p []
  | l@(_ :: rest) =>
      match p l with
      | some a => some a
      | none => searchSuffixes p rest

/-- A maximal run of decimal digits (`\d+`), with the rest. -/
def readDigits : List Char → Option (ℕ × List Char)
  | l =>
      let ds := l.takeWhile Char.isDigit
      if ds = [] then none
      else some (ds.foldl (fun acc c => acc * 10 + (c.toNat - 48)) 0,
        l.dropWhile Char.isDigit)

/-- Embeds `-?\d+`. -/
def readSignedInt (l : List Char) : Option (ℤ × List Char) :=
  match l with
  | '-' :: r => (readDigits r).map fun (n, rest) => (-(n : ℤ), rest)
  | _ => (readDigits l).map fun (n, rest) => ((n : ℤ), rest)

/-- The capture of `"((?:[^"\\]|\\\\.)*)"`: a star of (any char other than
quote and backslash) or (two backslashes and any char), then the closing
quote.  Returns the capture and the rest after the quote.  The alternatives
are mutually exclusive on their first character, so the star is
deterministic. -/
def quotedBody : List Char → Option (List Char × List Char)
  | [] => none
  | '"' :: rest => some ([], rest)
  | '\\' :: '\\' :: c :: rest =>
      (quotedBody rest).map fun (cap, r) => ('\\' :: '\\' :: c :: cap, r)
  | c :: rest =>
      if c = '\\' then none
      else (quotedBody rest).map fun (cap, r) => (c :: cap, r)

/-- Embeds `v.replace("\\\\", "\\")` (two backslashes to one), left to right. -/
def replaceDoubleBackslash : List Char → List Char
  | '\\' :: '\\' :: rest => '\\' :: replaceDoubleBackslash rest
  | c :: rest => c :: replaceDoubleBackslash rest
  | [] => []

/-- Embeds `v.replace("\\\"", "\"")` (backslash-quote to quote), left to right. -/
def replaceBackslashQuote : List Char → List Char
  | '\\' :: '"' :: rest => '"' :: replaceBackslashQuote rest
  | c :: rest => c :: replaceBackslashQuote rest
  | [] => []

/-- Embeds `_parse_quoted(arg_text, key)` tried at one position:
`key\s*=\s*"((?:[^"\\]|\\\\.)*)"`. -/
def parseQuotedAt (key : List Char) (l : List Char) : Option (List Char) :=
  match matchLit key l with
  | none => none
  | some r1 =>
    match dropWs r1 with
    | '=' :: r2 =>
      match dropWs r2 with
      | '"' :: r3 => (quotedBody r3).map Prod.fst
      | _ => none
    | _ => none

/-- Embeds `_parse_quoted(arg_text, key)`. -/
def parseQuoted (argText : List Char) (key : String) : Option String :=
  (searchSuffixes (parseQuotedAt key.data) argText).map fun cap =>
    ⟨replaceBackslashQuote (replaceDoubleBackslash cap)⟩

/-- Embeds `_parse_pair(arg_text, key)` tried at one position:
`key\s*=\s*(?:"|')?\[\s*(-?\d+)\s*,\s*(-?\d+)\s*\](?:"|')?`. -/
def parsePairAt (key : List Char) (l : List Char) : Option (ℤ × ℤ) :=
  match matchLit key l with
  | none => none
  | some r1 =>
    match dropWs r1 with
    | '=' :: r2 =>
      let r3 := dropWs r2
      let r4 := match r3 with
        | '"' :: r => r
        | '\x27' :: r => r
        | r => r
      match r4 with
      | '[' :: r5 =>
        match readSignedInt (dropWs r5) with
        | none => none
        | some (a, r6) =>
          match dropWs r6 with
          | ',' :: r7 =>
            match readSignedInt (dropWs r7) with
            | none => none
            | some (b, r8) =>
              match dropWs r8 with
              | ']' :: _ => some (a, b)
              | _ => none
          | _ => none
      | _ => none
    | _ => none

/-- Embeds `_parse_pair(arg_text, key)`. -/
def parsePair (argText : List Char) (key : String) : Option (ℤ × ℤ) :=
  searchSuffixes (parsePairAt key.data) argText

/-- Embeds `_parse_int(arg_text, key)` tried at one position: `key\s*=\s*(-?\d+)`. -/
def parseIntAt (key : List Char) (l : List Char) : Option ℤ :=
  match matchLit key l with
  | none => none
  | some r1 =>
    match dropWs r1 with
    | '=' :: r2 => (readSignedInt (dropWs r2)).map Prod.fst
    | _ => none

/-- Embeds `_parse_int(arg_text, key)`. -/
def parseOneInt (argText : List Char) (key : String) : Option ℤ :=
  searchSuffixes (parseIntAt key.data) argText

/-- The `([^"]+)`-style capture up to the next quote (with the quote
consumed); fails when no closing quote exists. -/
def takeUntilQuote : List Char → Option (List Char × List Char)
  | [] => none
  | '"' :: rest => some ([], rest)
  | c :: rest => (takeUntilQuote rest).map fun (a, r) => (c :: a, r)

/-- Embeds `re.match(r'do\(\s*action\s*=\s*"([^"]+)"(.*)\)\s*$', text, re.DOTALL)`:
returns the stripped action name and the argument text (group 2, everything
before the last `)` that only whitespace follows). -/
def doMatch (l : List Char) : Option (List Char × List Char) :=
  match matchLit "do(".data l with
  | none => none
  | some r1 =>
    match matchLit "action".data (dropWs r1) with
    | none => none
    | some r2 =>
      match dropWs r2 with
      | '=' :: r3 =>
        match dropWs r3 with
        | '"' :: r4 =>
          match takeUntilQuote r4 with
          | none => none
          | some (action, rest) =>
            if action = [] then none
            else
              match rest.reverse.dropWhile isWsChar with
              | ')' :: argsRev => some (stripChars action, argsRev.reverse)
              | _ => none
        | _ => none
      | _ => none

/-- The tagged action dictionary returned by `parse_action`. -/
inductive AgentAction where
  | tap (x y : ℤ)
  | swipe (sx sy ex ey durationMs : ℤ)
  | typeText (text : String) (enterAction : Option String)
  | wait (seconds : ℤ)
  | finish (message : String)
  | invalid (raw : String) (reason : String)
  deriving Repr, DecidableEq

/-- The Wait-branch seconds computation of `parse_action`:
`sec = int(first digit run) if any else 2; sec = max(1, min(sec, 15))`. -/
def waitSeconds (duration : String) : ℤ :=
  let sec : ℤ := ((digitRuns duration).head?.map Int.ofNat).getD 2
  max 1 (min sec 15)

/-- Python `d or 300`: `None` and `0` are falsy. -/
def pyOrDuration (d : Option ℤ) : ℤ :=
  match d with
  | some n => if n = 0 then 300 else n
  | none => 300

/-- Embeds `parse_action(answer)` from actl_agent.py. -/
def parseAction (answer : String) : AgentAction :=
  let text : String := ⟨stripChars answer.data⟩
  if (matchLit "finish(".data text.data).isSome then
    .finish ((parseQuoted text.data "message").getD "")
  else
    match doMatch text.data with
    | none => .invalid text "cannot parse action format"
    | some (actionChars, args) =>
      let action : String := ⟨actionChars⟩
      if action = "Tap" then
        match parsePair args "element" with
        | none => .invalid text "missing element=[x,y]"
        | some (x, y) => .tap x y
      else if action = "Swipe" then
        match parsePair args "start", parsePair args "end" with
        | some (sx, sy), some (ex, ey) =>
            .swipe sx sy ex ey (pyOrDuration (parseOneInt args "durationMs"))
        | _, _ => .invalid text "missing start/end"
      else if action = "Type" ∨ action = "Type_Name" then
        match parseQuoted args "text" with
        | none => .invalid text "missing text"
        | some t => .typeText t (parseQuoted args "enterAction")
      else if action = "Wait" then
        .wait (waitSeconds ((parseQuoted args "duration").getD "2 seconds"))
      else
        .invalid text ("unsupported action=" ++ action)

/-! ## Episode-loop drift guard (`run_agent`, actl_agent.py lines 991-1010)
and last-tap-point bookkeeping (lines 1026-1046) -/

/-- The loop-guard adjustment of the model's tap target: when the same-UI
streak is at least 1, a last tap point exists and the Manhattan distance
from it is below `min_tap_drift_px`, nudge the target along the first axis
direction with headroom. -/
def driftAdjust (streak : ℕ) (lastTap : Option (ℤ × ℤ))
    (targetX targetY minDrift xmin ymin xmax ymax : ℤ) : ℤ × ℤ :=
  match lastTap with
  | none => (targetX, targetY)
  | some (lx, ly) =>
    if 1 ≤ streak then
      if |targetX - lx| + |targetY - ly| < minDrift then
        if targetX + minDrift ≤ xmax then (targetX + minDrift, targetY)
        else if xmin ≤ targetX - minDrift then (targetX - minDrift, targetY)
        else if targetY + minDrift ≤ ymax then (targetX, targetY + minDrift)
        else (targetX, max ymin (targetY - minDrift))
      else (targetX, targetY)
    else (targetX, targetY)

/-- The arguments `run_agent` passes to `client.swipe` for a parsed swipe
action (actl_agent.py lines 1029-1035): the model-supplied coordinates,
unmodified. -/
def agentSwipeArgs : AgentAction → Option (ℤ × ℤ × ℤ × ℤ × ℤ)
  | .swipe sx sy ex ey d => some (sx, sy, ex, ey, d)
  | _ => none

/-- The `last_tap_point` update performed by one executed episode-loop step
(actl_agent.py lines 1026-1046): a tap stores its final attempted point,
swipe/type/wait reset to `None`, an unrecovered invalid answer leaves it
unchanged (the loop `continue`s without executing anything). -/
def updateLastTap (prev : Option (ℤ × ℤ)) (a : AgentAction)
    (tapFinal : ℤ × ℤ) : Option (ℤ × ℤ) :=
  match a with
  | .tap _ _ => some tapFinal
  | .swipe _ _ _ _ _ => none
  | .typeText _ _ => none
  | .wait _ => none
  | .finish _ => prev
  | .invalid _ _ => prev

/-- The trigger condition of the minimum-drift loop guard (actl_agent.py
lines 994-997). -/
def driftGuardFires (streak : ℕ) (lastTap : Option (ℤ × ℤ))
    (targetX targetY minDrift : ℤ) : Bool :=
  match lastTap with
  | none => false
  | some (lx, ly) =>
      decide (1 ≤ streak) &&
        decide (|targetX - lx| + |targetY - ly| < minDrift)

/-! ## Coordinate clamping before device calls (controller.py lines 801-804
and 855-862; actl_agent.py lines 787-792) -/

/-- The controller's stage-2 tap pixel (controller.py lines 855-862): clamp
the ratios into `[0,1]`, scale into the crop box, clamp into the click
range.  `xrRaw`/`yrRaw` are the `_safe_float` results for
`x_ratio`/`y_ratio`. -/
def controllerTapPoint (xrRaw yrRaw : ℚ) (box : PixelBox)
    (xmin ymin xmax ymax : ℤ) : ℤ × ℤ :=
  let xr := max 0 (min 1 xrRaw)
  let yr := max 0 (min 1 yrRaw)
  let x := (box.left : ℤ) +
    ⌊xr * ((max 1 ((box.right : ℤ) - (box.left : ℤ) - 1) : ℤ) : ℚ)⌋
  let y := (box.top : ℤ) +
    ⌊yr * ((max 1 ((box.bottom : ℤ) - (box.top : ℤ) - 1) : ℤ) : ℚ)⌋
  (clamp x xmin xmax, clamp y ymin ymax)

/-- The controller's final swipe clamping (controller.py lines 801-804),
applied to every swipe mode's raw endpoints before `client.swipe`. -/
def controllerSwipeClamped (sx sy ex ey xmin ymin xmax ymax : ℤ) :
    (ℤ × ℤ) × (ℤ × ℤ) :=
  ((clamp sx xmin xmax, clamp sy ymin ymax),
   (clamp ex xmin xmax, clamp ey ymin ymax))

/-- A step that executes no device action: an unrecovered invalid answer
(the loop `continue`s) or a finish (the loop returns). -/
def nonExecuting (a : AgentAction) : Prop :=
  (∃ r reason, a = .invalid r reason) ∨ (∃ m, a = .finish m)

/-! ## Answer Parser, JSON-ish grammar (`_extract_json`,
`_extract_planner_fallback`, `_has_unclosed_regions_array`, controller.py
lines 314-394 and 651-655)

`json.loads` is external library code, modelled at its interface by a strict
RFC-8259 recursive-descent parser (plus Python's `NaN`/`Infinity` extras);
string escape decoding stores a best-effort character since no claim
inspects decoded string values. -/

/-- A parsed JSON value.  Numeric tokens are kept as their source text:
no claim inspects a parsed number. -/
inductive JVal where
  | null
  | bool (b : Bool)
  | num (tok : String)
  | str (s : String)
  | arr (xs : List JVal)
  | obj (fields : List (String × JVal))
  deriving Repr

/-- JSON whitespace: space, tab, newline, carriage return. -/
def isJsonWs (c : Char) : Bool :=
  c == ' ' || c == '\t' || c == '\n' || c == '\r'

def dropJsonWs (l : List Char) : List Char := l.dropWhile isJsonWs

def hexVal (c : Char) : Option ℕ :=
  if '0' ≤ c ∧ c ≤ '9' then some (c.toNat - 48)
  else if 'a' ≤ c ∧ c ≤ 'f' then some (c.toNat - 87)
  else if 'A' ≤ c ∧ c ≤ 'F' then some (c.toNat - 55)
  else none

def escChar (c : Char) : Option Char :=
  if c = '"' then some '"'
  else if c = '\\' then some '\\'
  else if c = '/' then some '/'
  else if c = 'b' then some '\x08'
  else if c = 'f' then some '\x0c'
  else if c = 'n' then some '\n'
  else if c = 'r' then some '\r'
  else if c = 't' then some '\t'
  else none

/-- JSON string body after the opening quote: strict escapes, raw control
characters rejected. -/
def jsonStringAux : ℕ → List Char → Option (List Char × List Char)
  | 0, _ => none
  | _ + 1, [] => none
  | _ + 1, '"' :: rest => some ([], rest)
  | fuel + 1, '\\' :: 'u' :: h1 :: h2 :: h3 :: h4 :: rest =>
      match hexVal h1, hexVal h2, hexVal h3, hexVal h4 with
      | some a, some b, some c, some d =>
          (jsonStringAux fuel rest).map fun (s, r) =>
            (Char.ofNat (((a * 16 + b) * 16 + c) * 16 + d) :: s, r)
      | _, _, _, _ => none
  | fuel + 1, '\\' :: e :: rest =>
      match escChar e with
      | some c => (jsonStringAux fuel rest).map fun (s, r) => (c :: s, r)
      | none => none
  | fuel + 1, c :: rest =>
      if c.toNat < 32 then none
      else (jsonStringAux fuel rest).map fun (s, r) => (c :: s, r)

/-- A JSON number token: `-?(0|[1-9][0-9]*)(\.[0-9]+)?([eE][+-]?[0-9]+)?`. -/
def jsonNumber (l : List Char) : Option (List Char × List Char) :=
  let (sign, l1) := match l with
    | '-' :: r => (['-'], r)
    | _ => (([] : List Char), l)
  let intPart := l1.takeWhile Char.isDigit
  let l2 := l1.dropWhile Char.isDigit
  if intPart = [] then none
  else if intPart.length > 1 ∧ intPart.headD '0' = '0' then none
  else
    let (fracPart, l3) := match l2 with
      | '.' :: r =>
          let ds := r.takeWhile Char.isDigit
          if ds = [] then (([] : List Char), l2)
          else ('.' :: ds, r.dropWhile Char.isDigit)
      | _ => ([], l2)
    if l2 ≠ l3 ∨ fracPart = [] then
      let (expPart, l4) := match l3 with
        | 'e' :: '+' :: r =>
            let ds := r.takeWhile Char.isDigit
            if ds = [] then (([] : List Char), l3)
            else ('e' :: '+' :: ds, r.dropWhile Char.isDigit)
        | 'e' :: '-' :: r =>
            let ds := r.takeWhile Char.isDigit
            if ds = [] then (([] : List Char), l3)
            else ('e' :: '-' :: ds, r.dropWhile Char.isDigit)
        | 'e' :: r =>
            let ds := r.takeWhile Char.isDigit
            if ds = [] then (([] : List Char), l3)
            else ('e' :: ds, r.dropWhile Char.isDigit)
        | 'E' :: '+' :: r =>
            let ds := r.takeWhile Char.isDigit
            if ds = [] then (([] : List Char), l3)
            else ('E' :: '+' :: ds, r.dropWhile Char.isDigit)
        | 'E' :: '-' :: r =>
            let ds := r.takeWhile Char.isDigit
            if ds = [] then (([] : List Char), l3)
            else ('E' :: '-' :: ds, r.dropWhile Char.isDigit)
        | 'E' :: r =>
            let ds := r.takeWhile Char.isDigit
            if ds = [] then (([] : List Char), l3)
            else ('E' :: ds, r.dropWhile Char.isDigit)
        | _ => ([], l3)
      some (sign ++ intPart ++ fracPart ++ expPart, l4)
    else none

/-- Parser mode: a value, the members of an object (strict: at least one
member, no trailing comma), or the items of an array. -/
inductive JMode where
  | value
  | objRest
  | arrRest
  deriving Repr, DecidableEq

/-- Parser intermediate result per mode. -/
inductive JRes where
  | v (x : JVal)
  | fields (fs : List (String × JVal))
  | elems (xs : List JVal)
  deriving Repr

/-- The recursive-descent JSON parser, fuelled for structural recursion. -/
def jsonRun : ℕ → JMode → List Char → Option (JRes × List Char)
  | 0, _, _ => none
  | fuel + 1, .value, l =>
    let l1 := dropJsonWs l
    match l1 with
    | '{' :: r =>
      let r1 := dropJsonWs r
      (match r1 with
       | '}' :: r2 => some (.v (.obj []), r2)
       | _ =>
         match jsonRun fuel .objRest r1 with
         | some (.fields fs, r2) => some (.v (.obj fs), r2)
         | _ => none)
    | '[' :: r =>
      let r1 := dropJsonWs r
      (match r1 with
       | ']' :: r2 => some (.v (.arr []), r2)
       | _ =>
         match jsonRun fuel .arrRest r1 with
         | some (.elems xs, r2) => some (.v (.arr xs), r2)
         | _ => none)
    | '"' :: r =>
      (jsonStringAux (r.length + 1) r).map fun (s, r2) => (.v (.str ⟨s⟩), r2)
    | 't' :: 'r' :: 'u' :: 'e' :: r => some (.v (.bool true), r)
    | 'f' :: 'a' :: 'l' :: 's' :: 'e' :: r => some (.v (.bool false), r)
    | 'n' :: 'u' :: 'l' :: 'l' :: r => some (.v .null, r)
    | 'N' :: 'a' :: 'N' :: r => some (.v (.num "NaN"), r)
    | 'I' :: 'n' :: 'f' :: 'i' :: 'n' :: 'i' :: 't' :: 'y' :: r =>
        some (.v (.num "Infinity"), r)
    | '-' :: 'I' :: 'n' :: 'f' :: 'i' :: 'n' :: 'i' :: 't' :: 'y' :: r =>
        some (.v (.num "-Infinity"), r)
    | _ => (jsonNumber l1).map fun (tok, r) => (.v (.num ⟨tok⟩), r)
  | fuel + 1, .objRest, l =>
    match l with
    | '"' :: r =>
      match jsonStringAux (r.length + 1) r with
      | none => none
      | some (key, r2) =>
        match dropJsonWs r2 with
        | ':' :: r3 =>
          match jsonRun fuel .value r3 with
          | some (.v v, r4) =>
            (match dropJsonWs r4 with
             | ',' :: r5 =>
               (match jsonRun fuel .objRest (dropJsonWs r5) with
                | some (.fields fs, r6) => some (.fields ((⟨key⟩, v) :: fs), r6)
                | _ => none)
             | '}' :: r5 => some (.fields [(⟨key⟩, v)], r5)
             | _ => none)
          | _ => none
        | _ => none
    | _ => none
  | fuel + 1, .arrRest, l =>
    match jsonRun fuel .value l with
    | some (.v v, r1) =>
      (match dropJsonWs r1 with
       | ',' :: r2 =>
         (match jsonRun fuel .arrRest (dropJsonWs r2) with
          | some (.elems xs, r3) => some (.elems (v :: xs), r3)
          | _ => none)
       | ']' :: r2 => some (.elems [v], r2)
       | _ => none)
    | _ => none

/-- Embeds `json.loads(s)`: parse one value, allow only trailing whitespace. -/
def jsonParse (s : String) : Option JVal :=
  match jsonRun (2 * s.data.length + 4) .value s.data with
  | some (.v v, rest) => if dropJsonWs rest = [] then some v else none
  | _ => none

/-- Strip a leading/trailing markdown code fence, as the two `re.sub` calls
of `_extract_json` (only invoked when the text starts with three
backticks). -/
def stripFence (l : List Char) : List Char :=
  let l1 :=
    match matchLit ['\x60', '\x60', '\x60'] l with
    | some r =>
      let r2 := r.dropWhile fun (c : Char) => c.isAlphanum || c = '_' || c = '-'
      (match r2 with
       | '\n' :: r3 => r3
       | _ => r2)
    | none => l
  let r := l1.reverse
  let r2 :=
    match r with
    | '\x60' :: '\x60' :: '\x60' :: rest =>
        (match rest with
         | '\n' :: rest2 => rest2
         | _ => rest)
    | '\n' :: '\x60' :: '\x60' :: '\x60' :: rest =>
        '\n' :: (match rest with
         | '\n' :: rest2 => rest2
         | _ => rest)
    | _ => r
  r2.reverse

/-- Embeds `re.search(r"\{.*\}", raw, re.DOTALL)`: the span from the first `{` to
the last `}` (the `}` must come after the `{`). -/
def braceSpan (l : List Char) : Option (List Char) :=
  let fromBrace := l.dropWhile (· ≠ '{')
  match fromBrace with
  | [] => none
  | _ =>
    let upto := fromBrace.reverse.dropWhile (· ≠ '}')
    match upto with
    | [] => none
    | _ => some upto.reverse

/-- Embeds `_extract_json(raw)`: fence strip, strict parse, then first-to-last
brace span; only a JSON object is accepted. -/
def extractJson (raw : String) : Option (List (String × JVal)) :=
  let text := stripChars raw.data
  let text := if (matchLit ['\x60', '\x60', '\x60'] text).isSome then stripFence text
    else text
  match jsonParse ⟨text⟩ with
  | some (.obj fs) => some fs
  | _ =>
    match braceSpan raw.data with
    | none => none
    | some frag =>
      match jsonParse ⟨frag⟩ with
      | some (.obj fs) => some fs
      | _ => none

/-- Embeds `"key"\s*:\s*` at one position, case-insensitive key (`re.IGNORECASE`);
returns the rest after the colon and following whitespace. -/
def jsonFieldPrefix (key : List Char) (l : List Char) : Option (List Char) :=
  match l with
  | '"' :: r1 =>
    match matchLitCI key r1 with
    | some ('"' :: r2) =>
      (match dropWs r2 with
       | ':' :: r3 => some (dropWs r3)
       | _ => none)
    | _ => none
  | _ => none

/-- Embeds `"key"\s*:\s*"([^"]*)"` (or `+` when `allowEmpty` is false) at one
position. -/
def quotedValueAt (key : List Char) (allowEmpty : Bool) (l : List Char) :
    Option (List Char) :=
  match jsonFieldPrefix key l with
  | some ('"' :: r) =>
    (match takeUntilQuote r with
     | some (content, _) =>
        if allowEmpty ∨ content ≠ [] then some content else none
     | none => none)
  | _ => none

/-- Embeds `"key"\s*:\s*(\d+)` at one position. -/
def natValueAt (key : List Char) (l : List Char) : Option ℕ :=
  ( jsonFieldPrefix key l).bind fun r => (readDigits r).map Prod.fst

/-- Embeds `"key"\s*:\s*(-?\d+)` at one position. -/
def intValueAt (key : List Char) (l : List Char) : Option ℤ :=
  ( jsonFieldPrefix key l).bind fun r => (readSignedInt r).map Prod.fst

/-- Embeds `-?\d+(?:\.\d+)?` as an exact rational (`float(...)` in the source). -/
def readRatio (l : List Char) : Option ℚ :=
  let (neg, l1) := match l with
    | '-' :: r => (true, r)
    | _ => (false, l)
  match readDigits l1 with
  | none => none
  | some (n, l2) =>
    let q : ℚ :=
      match l2 with
      | '.' :: r =>
        let ds := r.takeWhile Char.isDigit
        if ds = [] then (n : ℚ)
        else (n : ℚ) +
          ((ds.foldl (fun (acc : ℕ) (c : Char) => acc * 10 + (c.toNat - 48))
            0 : ℕ) : ℚ) / ((10 : ℚ) ^ ds.length)
      | _ => (n : ℚ)
    some (if neg then -q else q)

def ratioValueAt (key : List Char) (l : List Char) : Option ℚ :=
  ( jsonFieldPrefix key l).bind readRatio

/-- The `([^\]]+)` capture up to the next `]` (requiring it), non-empty. -/
def takeUntilRBracket : List Char → Option (List Char × List Char)
  | [] => none
  | ']' :: rest => some ([], rest)
  | c :: rest => (takeUntilRBracket rest).map fun (a, r) => (c :: a, r)

/-- Embeds `"regions"\s*:\s*\[([^\]]+)\]` then `re.findall(r"\d+", ...)`, kept only
when at least one number was found. -/
def regionsValueAt (l : List Char) : Option (List ℤ) :=
  match jsonFieldPrefix ['r', 'e', 'g', 'i', 'o', 'n', 's'] l with
  | some ('[' :: r) =>
    (match takeUntilRBracket r with
     | some (content, _) =>
        if content = [] then none
        else
          match digitRunsAux content none with
          | [] => none
          | nums => some (nums.map Int.ofNat)
     | none => none)
  | _ => none

/-- Embeds `"direction"\s*:\s*"(up|down|left|right)"` at one position
(case-insensitive), returning the capture. -/
def directionValueAt (l : List Char) : Option (List Char) :=
  match jsonFieldPrefix ['d', 'i', 'r', 'e', 'c', 't', 'i', 'o', 'n'] l with
  | some ('"' :: r) =>
    let tryWord := fun (w : List Char) =>
      match matchLitCI w r with
      | some ('"' :: _) => some (r.take w.length)
      | _ => none
    (match tryWord ['u', 'p'] with
     | some c => some c
     | none =>
       match tryWord ['d', 'o', 'w', 'n'] with
       | some c => some c
       | none =>
         match tryWord ['l', 'e', 'f', 't'] with
         | some c => some c
         | none => tryWord ['r', 'i', 'g', 'h', 't'])
  | _ => none

/-- Embeds `"pressEnter"\s*:\s*(true|false)` at one position (case-insensitive). -/
def pressEnterValueAt (l : List Char) : Option (List Char) :=
  match jsonFieldPrefix
      ['p', 'r', 'e', 's', 's', 'E', 'n', 't', 'e', 'r'] l with
  | some r =>
    (match matchLitCI ['t', 'r', 'u', 'e'] r with
     | some _ => some (r.take 4)
     | none =>
       match matchLitCI ['f', 'a', 'l', 's', 'e'] r with
       | some _ => some (r.take 5)
       | none => none)
  | _ => none

/-- The dictionary assembled by `_extract_planner_fallback`: one optional
slot per recognized key. -/
structure PlannerFallback where
  action : Option String := none
  target : Option String := none
  region : Option ℤ := none
  regions : Option (List ℤ) := none
  text : Option String := none
  enterAction : Option String := none
  waitSec : Option ℤ := none
  finishMessage : Option String := none
  swipeTarget : Option String := none
  direction : Option String := none
  durationMs : Option ℤ := none
  startRegion : Option ℤ := none
  endRegion : Option ℤ := none
  startX : Option ℤ := none
  startY : Option ℤ := none
  endX : Option ℤ := none
  endY : Option ℤ := none
  startXRatio : Option ℚ := none
  startYRatio : Option ℚ := none
  endXRatio : Option ℚ := none
  endYRatio : Option ℚ := none
  pressEnter : Option Bool := none
  deriving Repr, DecidableEq

/-- Embeds `.strip().lower()` of a capture. -/
def lowerStrip (l : List Char) : String := ⟨(stripChars l).map Char.toLower⟩

/-- Embeds `_extract_planner_fallback(raw)`. -/
def extractPlannerFallback (raw : String) : PlannerFallback :=
  let l := raw.data
  { action := (searchSuffixes
      (quotedValueAt ['a', 'c', 't', 'i', 'o', 'n'] false) l).map lowerStrip
    target := (searchSuffixes
      (quotedValueAt ['t', 'a', 'r', 'g', 'e', 't'] true) l).map
        fun c => (⟨stripChars c⟩ : String)
    region := (searchSuffixes
      (natValueAt ['r', 'e', 'g', 'i', 'o', 'n']) l).map Int.ofNat
    regions := searchSuffixes regionsValueAt l
    text := (searchSuffixes
      (quotedValueAt ['t', 'e', 'x', 't'] true) l).map fun c => (⟨c⟩ : String)
    enterAction := (searchSuffixes
      (quotedValueAt
        ['e', 'n', 't', 'e', 'r', 'A', 'c', 't', 'i', 'o', 'n'] false) l).map
          lowerStrip
    waitSec := (searchSuffixes
      (natValueAt ['w', 'a', 'i', 't', 'S', 'e', 'c']) l).map Int.ofNat
    finishMessage := (searchSuffixes
      (quotedValueAt
        ['f', 'i', 'n', 'i', 's', 'h', 'M', 'e', 's', 's', 'a', 'g', 'e']
        true) l).map fun c => (⟨c⟩ : String)
    swipeTarget := (searchSuffixes
      (quotedValueAt
        ['s', 'w', 'i', 'p', 'e', 'T', 'a', 'r', 'g', 'e', 't'] true) l).map
          fun c => (⟨stripChars c⟩ : String)
    direction := (searchSuffixes directionValueAt l).map
      fun c => (⟨c.map Char.toLower⟩ : String)
    durationMs := (searchSuffixes
      (natValueAt ['d', 'u', 'r', 'a', 't', 'i', 'o', 'n', 'M', 's']) l).map
        Int.ofNat
    startRegion := (searchSuffixes
      (natValueAt
        ['s', 't', 'a', 'r', 't', 'R', 'e', 'g', 'i', 'o', 'n']) l).map
          Int.ofNat
    endRegion := (searchSuffixes
      (natValueAt ['e', 'n', 'd', 'R', 'e', 'g', 'i', 'o', 'n']) l).map
        Int.ofNat
    startX := searchSuffixes (intValueAt ['s', 't', 'a', 'r', 't', 'X']) l
    startY := searchSuffixes (intValueAt ['s', 't', 'a', 'r', 't', 'Y']) l
    endX := searchSuffixes (intValueAt ['e', 'n', 'd', 'X']) l
    endY := searchSuffixes (intValueAt ['e', 'n', 'd', 'Y']) l
    startXRatio := searchSuffixes
      (ratioValueAt ['s', 't', 'a', 'r', 't', 'X', 'R', 'a', 't', 'i', 'o']) l
    startYRatio := searchSuffixes
      (ratioValueAt ['s', 't', 'a', 'r', 't', 'Y', 'R', 'a', 't', 'i', 'o']) l
    endXRatio := searchSuffixes
      (ratioValueAt ['e', 'n', 'd', 'X', 'R', 'a', 't', 'i', 'o']) l
    endYRatio := searchSuffixes
      (ratioValueAt ['e', 'n', 'd', 'Y', 'R', 'a', 't', 'i', 'o']) l
    pressEnter := (searchSuffixes pressEnterValueAt l).map
      fun c => (⟨c.map Char.toLower⟩ : String) = "true" }

/-- Embeds `_has_unclosed_regions_array(raw)`: a `"regions": [` opener with no `]`
anywhere after it. -/
def hasUnclosedRegionsArray (raw : String) : Bool :=
  match searchSuffixes
      (fun l =>
        match jsonFieldPrefix ['r', 'e', 'g', 'i', 'o', 'n', 's'] l with
        | some ('[' :: r) => some r
        | _ => none)
      raw.data with
  | none => false
  | some rest => !(rest.contains ']')

/-! ## Verification: helper lemmas, claim theorems, witnesses and
counterexamples -/

theorem argminFirst_mem (key : GridCand → ℚ × ℚ) (b : GridCand)
    (l : List GridCand) : argminFirst key b l = b ∨ argminFirst key b l ∈ l := by
  induction l generalizing b with
  | nil => left; rfl
  | cons c rest ih =>
    simp only [argminFirst]
    split
    · rcases ih c with h | h
      · right; simp [h]
      · right; simp [h]
    · rcases ih b with h | h
      · left; exact h
      · right; simp [h]

theorem gridCandidates_mem {logf : ℚ → ℚ} {width height : ℤ}
    {minSeg maxSeg : ℕ} {c : GridCand}
    (h : c ∈ gridCandidates logf width height minSeg maxSeg) :
    minSeg ≤ c.rows ∧ c.rows ≤ maxSeg ∧ minSeg ≤ c.cols ∧ c.cols ≤ maxSeg ∧
      1 < (width : ℚ) / (c.cols : ℚ) ∧ 1 < (height : ℚ) / (c.rows : ℚ) := by
  unfold gridCandidates at h
  rcases List.mem_flatMap.mp h with ⟨rows, hrows, hin⟩
  rcases List.mem_filterMap.mp hin with ⟨cols, hcols, hsome⟩
  rw [List.mem_range'_1] at hrows hcols
  simp only at hsome
  by_cases hdeg : (width : ℚ) / (cols : ℚ) ≤ 1 ∨ (height : ℚ) / (rows : ℚ) ≤ 1
  · rw [if_pos hdeg] at hsome
    exact absurd hsome (by simp)
  · rw [if_neg hdeg] at hsome
    push_neg at hdeg
    cases hsome
    dsimp only
    exact ⟨by omega, by omega, by omega, by omega, hdeg.1, hdeg.2⟩

theorem chooseAdaptiveGrid_spec (logf : ℚ → ℚ) (width height : ℤ)
    (minSeg maxSeg : ℕ) (target : ℚ) :
    (∃ c ∈ gridCandidates logf width height minSeg maxSeg,
        chooseAdaptiveGrid logf width height minSeg maxSeg target = c) ∨
      (gridCandidates logf width height minSeg maxSeg = [] ∧
        (chooseAdaptiveGrid logf width height minSeg maxSeg target).rows = 3 ∧
        (chooseAdaptiveGrid logf width height minSeg maxSeg target).cols = 3) := by
  rcases hc : gridCandidates logf width height minSeg maxSeg with _ | ⟨c, cs⟩
  · right
    refine ⟨rfl, ?_, ?_⟩ <;> simp [chooseAdaptiveGrid, hc]
  · left
    rcases hn : (c :: cs).filter (fun k => k.logError ≤ target) with _ | ⟨n, ns⟩
    · have hval : chooseAdaptiveGrid logf width height minSeg maxSeg target
          = argminFirst (fun k => (k.logError, (k.cells : ℚ))) c cs := by
        simp [chooseAdaptiveGrid, hc, hn]
      rcases argminFirst_mem (fun k => (k.logError, (k.cells : ℚ))) c cs with
        h | h
      · exact ⟨c, by simp [hc], by rw [hval, h]⟩
      · exact ⟨_, by simp [hc, h], hval⟩
    · have hval : chooseAdaptiveGrid logf width height minSeg maxSeg target
          = argminFirst (fun k => ((k.cells : ℚ), k.logError)) n ns := by
        simp [chooseAdaptiveGrid, hc, hn]
      have hnmem : ∀ x, x = n ∨ x ∈ ns → x ∈ c :: cs := by
        intro x hx
        have hx2 : x ∈ n :: ns := by rcases hx with h | h <;> simp [h]
        rw [← hn] at hx2
        exact List.mem_of_mem_filter hx2
      rcases argminFirst_mem (fun k => ((k.cells : ℚ), k.logError)) n ns with
        h | h
      · exact ⟨_, hnmem _ (Or.inl rfl), by rw [hval, h]⟩
      · exact ⟨_, hnmem _ (Or.inr h), hval⟩

/-- C3 (amended): for every frame `width, height > 0` and every model of
`math.log`, with the default bounds (3..12, target log-error 0.2) the grid
partitioner returns `rows` and `cols` in `[3, 12]`; moreover whenever
`width ≥ 4` and `height ≥ 4` (the frames for which any candidate exists) the
cell width `width/cols` and cell height `height/rows` are each strictly
greater than 1 pixel.  For degenerate frames (`width ≤ 3` or `height ≤ 3`)
the 3×3 fallback is returned and its cells may be at most 1 pixel wide. -/
theorem claim_C3_grid_bounds (logf : ℚ → ℚ) (width height : ℤ)
    (hw : 0 < width) (hh : 0 < height) :
    (3 ≤ (chooseAdaptiveGrid logf width height 3 12 (1 / 5)).rows ∧
      (chooseAdaptiveGrid logf width height 3 12 (1 / 5)).rows ≤ 12 ∧
      3 ≤ (chooseAdaptiveGrid logf width height 3 12 (1 / 5)).cols ∧
      (chooseAdaptiveGrid logf width height 3 12 (1 / 5)).cols ≤ 12) ∧
    (4 ≤ width → 4 ≤ height →
      1 < (width : ℚ) / ((chooseAdaptiveGrid logf width height 3 12 (1 / 5)).cols : ℚ) ∧
      1 < (height : ℚ) / ((chooseAdaptiveGrid logf width height 3 12 (1 / 5)).rows : ℚ)) := by
  rcases chooseAdaptiveGrid_spec logf width height 3 12 (1 / 5) with
    ⟨c, hc, heq⟩ | ⟨hempty, hr, hcol⟩
  · obtain ⟨h1, h2, h3, h4, h5, h6⟩ := gridCandidates_mem hc
    rw [heq]
    exact ⟨⟨h1, h2, h3, h4⟩, fun _ _ => ⟨h5, h6⟩⟩
  · refine ⟨⟨by omega, by omega, by omega, by omega⟩, fun hw4 hh4 => ?_⟩
    exfalso
    have hmem : (⟨3, 3, 9, ((width : ℚ) / 3) / ((height : ℚ) / 3),
        |logf (max (1 / 1000000) (((width : ℚ) / 3) / ((height : ℚ) / 3)))|⟩ : GridCand) ∈
        gridCandidates logf width height 3 12 := by
      unfold gridCandidates
      refine List.mem_flatMap.mpr ⟨3, ?_, ?_⟩
      · rw [List.mem_range'_1]; omega
      · refine List.mem_filterMap.mpr ⟨3, ?_, ?_⟩
        · rw [List.mem_range'_1]; omega
        · have hwq : (1 : ℚ) < (width : ℚ) / 3 := by
            rw [lt_div_iff (by norm_num : (0 : ℚ) < 3)]
            have : (4 : ℚ) ≤ (width : ℚ) := by exact_mod_cast hw4
            linarith
          have hhq : (1 : ℚ) < (height : ℚ) / 3 := by
            rw [lt_div_iff (by norm_num : (0 : ℚ) < 3)]
            have : (4 : ℚ) ≤ (height : ℚ) := by exact_mod_cast hh4
            linarith
          rw [if_neg (by push_neg; exact ⟨hwq, hhq⟩)]
          norm_num
    rw [hempty] at hmem
    exact absurd hmem (List.not_mem_nil _)

/-- C3 counterexample: on the degenerate 2×2 frame the partitioner returns
the 3×3 fallback, whose cell width `2/3` is not greater than 1 pixel, so the
claim's "cell width > 1 for every width, height > 0" fails. -/
theorem claim_C3_counterexample :
    (chooseAdaptiveGrid (fun _ => 0) 2 2 3 12 (1 / 5)).rows = 3 ∧
    (chooseAdaptiveGrid (fun _ => 0) 2 2 3 12 (1 / 5)).cols = 3 ∧
    ¬(1 < (2 : ℚ) / ((chooseAdaptiveGrid (fun _ => 0) 2 2 3 12 (1 / 5)).cols : ℚ)) := by
  have hempty : gridCandidates (fun _ => 0) 2 2 3 12 = [] := by
    norm_num [gridCandidates, List.range']
  refine ⟨?_, ?_, ?_⟩ <;> simp [chooseAdaptiveGrid, hempty] <;> norm_num

/-- C3 witness: the amended theorem applied to the 1080×2340 frame. -/
theorem claim_C3_witness :
    (3 ≤ (chooseAdaptiveGrid (fun _ => 0) 1080 2340 3 12 (1 / 5)).rows ∧
      (chooseAdaptiveGrid (fun _ => 0) 1080 2340 3 12 (1 / 5)).rows ≤ 12 ∧
      3 ≤ (chooseAdaptiveGrid (fun _ => 0) 1080 2340 3 12 (1 / 5)).cols ∧
      (chooseAdaptiveGrid (fun _ => 0) 1080 2340 3 12 (1 / 5)).cols ≤ 12) ∧
    (1 < ((1080 : ℤ) : ℚ) / ((chooseAdaptiveGrid (fun _ => 0) 1080 2340 3 12 (1 / 5)).cols : ℚ) ∧
      1 < ((2340 : ℤ) : ℚ) / ((chooseAdaptiveGrid (fun _ => 0) 1080 2340 3 12 (1 / 5)).rows : ℚ)) := by
  have h := claim_C3_grid_bounds (fun _ => 0) 1080 2340 (by decide) (by decide)
  exact ⟨h.1, h.2 (by decide) (by decide)⟩

theorem foldl_min_le_init (xs : List ℕ) (a : ℕ) : xs.foldl min a ≤ a := by
  induction xs generalizing a with
  | nil => simp
  | cons y ys ih =>
    simpa using le_trans (ih (min a y)) (min_le_left a y)

theorem foldl_min_le_mem (xs : List ℕ) (a : ℕ) {x : ℕ} (h : x ∈ xs) :
    xs.foldl min a ≤ x := by
  induction xs generalizing a with
  | nil => cases h
  | cons y ys ih =>
    rcases List.mem_cons.mp h with rfl | h2
    · simpa using le_trans (foldl_min_le_init ys (min a x)) (min_le_right a x)
    · simpa using ih (min a y) h2

theorem init_le_foldl_max (xs : List ℕ) (a : ℕ) : a ≤ xs.foldl max a := by
  induction xs generalizing a with
  | nil => simp
  | cons y ys ih =>
    simpa using le_trans (le_max_left a y) (ih (max a y))

theorem mem_le_foldl_max (xs : List ℕ) (a : ℕ) {x : ℕ} (h : x ∈ xs) :
    x ≤ xs.foldl max a := by
  induction xs generalizing a with
  | nil => cases h
  | cons y ys ih =>
    rcases List.mem_cons.mp h with rfl | h2
    · simpa using le_trans (le_max_right a x) (init_le_foldl_max ys (max a x))
    · simpa using ih (max a y) h2

theorem listMinN_le {l : List ℕ} {x : ℕ} (h : x ∈ l) : listMinN l ≤ x := by
  cases l with
  | nil => cases h
  | cons y ys =>
    rcases List.mem_cons.mp h with rfl | h2
    · exact foldl_min_le_init ys x
    · exact foldl_min_le_mem ys y h2

theorem le_listMaxN {l : List ℕ} {x : ℕ} (h : x ∈ l) : x ≤ listMaxN l := by
  cases l with
  | nil => cases h
  | cons y ys =>
    rcases List.mem_cons.mp h with rfl | h2
    · exact init_le_foldl_max ys x
    · exact mem_le_foldl_max ys y h2

theorem regionRowCol_of_range {n rows cols : ℕ} (h1 : 1 ≤ n)
    (h2 : n ≤ rows * cols) :
    regionRowCol (n : ℤ) rows cols = ((n - 1) / cols, (n - 1) % cols) := by
  unfold regionRowCol regionIndex clamp
  have h2' : (n : ℤ) ≤ (rows : ℤ) * (cols : ℤ) := by exact_mod_cast h2
  have hcl : (max 1 (min ((rows : ℤ) * (cols : ℤ)) (n : ℤ)) - 1).toNat = n - 1 := by
    omega
  rw [hcl]

theorem regionRowCol_expand {row c rows cols : ℕ} (hrow : row < rows)
    (hc : c < cols) :
    regionRowCol ((row * cols + c + 1 : ℕ) : ℤ) rows cols = (row, c) := by
  have h1 : 1 ≤ row * cols + c + 1 := by omega
  have h2 : row * cols + c + 1 ≤ rows * cols := by
    have hmul : (row + 1) * cols ≤ rows * cols := Nat.mul_le_mul_right _ (by omega)
    calc row * cols + c + 1 ≤ row * cols + cols := by omega
      _ = (row + 1) * cols := by ring
      _ ≤ rows * cols := hmul
  rw [regionRowCol_of_range h1 h2]
  have hidx : row * cols + c + 1 - 1 = c + cols * row := by
    rw [Nat.add_sub_cancel]; ring
  rw [hidx, Nat.add_mul_div_left _ _ (by omega), Nat.div_eq_of_lt hc,
    Nat.add_mul_mod_self_left, Nat.mod_eq_of_lt hc]
  simp

theorem clamp_of_range {r : ℤ} {cells : ℕ} (h1 : 1 ≤ r) (h2 : r ≤ (cells : ℤ)) :
    clamp r 1 (cells : ℤ) = r := by
  unfold clamp; omega

/-- Every in-range input region's row and column reappear among the
normalized (possibly bar-expanded) regions. -/
theorem normalizedRegions_cover (inputs : List ℤ) (target : String)
    (rows cols : ℕ) (hr1 : 1 ≤ rows) (hc1 : 1 ≤ cols)
    (hin : ∀ r ∈ inputs, 1 ≤ r ∧ r ≤ (rows : ℤ) * (cols : ℤ)) :
    ∀ r ∈ inputs, ∃ n ∈ normalizedRegions ⟨.list inputs, 0, target⟩ rows cols,
      regionRowCol (n : ℤ) rows cols = regionRowCol r rows cols := by
  intro r hrmem
  obtain ⟨hr1r, hr2r⟩ := hin r hrmem
  have hcast : ((rows * cols : ℕ) : ℤ) = (rows : ℤ) * (cols : ℤ) := by push_cast; rfl
  have hclamp : clamp r 1 ((rows * cols : ℕ) : ℤ) = r :=
    clamp_of_range hr1r (by rw [hcast]; exact hr2r)
  have hrtn : ((r.toNat : ℕ) : ℤ) = r := by omega
  have hrlo : 1 ≤ r.toNat := by omega
  have hrhi : r.toNat ≤ rows * cols := by omega
  have hif : (if (0 : ℤ) < 0 then [(0 : ℤ)] else []) = [] := by norm_num
  simp only [normalizedRegions, parseRegionsValue, hif, List.append_nil]
  have hmem0 : r.toNat ∈
      (((inputs.filter (0 < ·)).map
        (fun x => (clamp x 1 ((rows * cols : ℕ) : ℤ)).toNat)).dedup).insertionSort
        (· ≤ ·) := by
    rw [List.mem_insertionSort, List.mem_dedup]
    have hmf : r ∈ inputs.filter (0 < ·) :=
      List.mem_filter.mpr ⟨hrmem, by simpa using lt_of_lt_of_le zero_lt_one hr1r⟩
    have hmm := List.mem_map_of_mem
      (fun x => (clamp x 1 ((rows * cols : ℕ) : ℤ)).toNat) hmf
    simp only at hmm
    rwa [hclamp] at hmm
  cases hshape : (((inputs.filter (0 < ·)).map
      (fun x => (clamp x 1 ((rows * cols : ℕ) : ℤ)).toNat)).dedup).insertionSort
      (· ≤ ·) with
  | nil => rw [hshape] at hmem0; cases hmem0
  | cons v rest =>
    rw [hshape] at hmem0
    rw [if_neg (by simp)]
    cases rest with
    | cons x xs => exact ⟨r.toNat, hmem0, by rw [hrtn]⟩
    | nil =>
      have hvr : v = r.toNat := (List.mem_singleton.mp hmem0).symm
      have hvz : ((v : ℕ) : ℤ) = r := by rw [hvr, hrtn]
      cases hlook : looksLikeHorizontalSpanTarget target with
      | false => exact ⟨r.toNat, by simp [hvr], by rw [hrtn]⟩
      | true =>
        have hvlo : 1 ≤ v := by omega
        have hvhi : v ≤ rows * cols := by omega
        have hrr : regionRowCol (v : ℤ) rows cols =
            ((v - 1) / cols, (v - 1) % cols) :=
          regionRowCol_of_range hvlo hvhi
        have hrowlt : (v - 1) / cols < rows := by
          rw [Nat.div_lt_iff_lt_mul (by omega)]
          have hlt : v - 1 < rows * cols := by omega
          linarith [hlt]
        have hcollt : (v - 1) % cols < cols := Nat.mod_lt _ (by omega)
        refine ⟨(regionRowCol (v : ℤ) rows cols).1 * cols + (v - 1) % cols + 1,
          List.mem_map_of_mem _ (List.mem_range.mpr hcollt), ?_⟩
        have hfst : (regionRowCol (v : ℤ) rows cols).1 = (v - 1) / cols := by
          rw [hrr]
        rw [hfst, regionRowCol_expand hrowlt hcollt, ← hvz, hrr]

theorem rectCover_minRow_eq (p : PlannerRegions) (rows cols width height : ℕ) :
    (rectCoverFromRegions p rows cols width height).minRow =
      listMinN (((normalizedRegions p rows cols).map
        (fun (r : ℕ) => regionRowCol (r : ℤ) rows cols)).map Prod.fst) := rfl

theorem rectCover_maxRow_eq (p : PlannerRegions) (rows cols width height : ℕ) :
    (rectCoverFromRegions p rows cols width height).maxRow =
      listMaxN (((normalizedRegions p rows cols).map
        (fun (r : ℕ) => regionRowCol (r : ℤ) rows cols)).map Prod.fst) := rfl

theorem rectCover_minCol_eq (p : PlannerRegions) (rows cols width height : ℕ) :
    (rectCoverFromRegions p rows cols width height).minCol =
      listMinN (((normalizedRegions p rows cols).map
        (fun (r : ℕ) => regionRowCol (r : ℤ) rows cols)).map Prod.snd) := rfl

theorem rectCover_maxCol_eq (p : PlannerRegions) (rows cols width height : ℕ) :
    (rectCoverFromRegions p rows cols width height).maxCol =
      listMaxN (((normalizedRegions p rows cols).map
        (fun (r : ℕ) => regionRowCol (r : ℤ) rows cols)).map Prod.snd) := rfl

theorem rectCover_boxRight_eq (p : PlannerRegions) (rows cols width height : ℕ) :
    (rectCoverFromRegions p rows cols width height).box.right =
      (if (rectCoverFromRegions p rows cols width height).maxCol = cols - 1
        then width
        else ((rectCoverFromRegions p rows cols width height).maxCol + 1) *
          (width / cols)) := rfl

theorem rectCover_boxBottom_eq (p : PlannerRegions) (rows cols width height : ℕ) :
    (rectCoverFromRegions p rows cols width height).box.bottom =
      (if (rectCoverFromRegions p rows cols width height).maxRow = rows - 1
        then height
        else ((rectCoverFromRegions p rows cols width height).maxRow + 1) *
          (height / rows)) := rfl

/-- C6: for every non-empty list of in-range region indices on a `rows×cols`
grid, the covering rectangle computed by `_rect_cover_from_regions` contains
every input region's row and column, and the covering pixel box's right
(resp. bottom) equals the frame width (resp. height) whenever the
rectangle's max column (resp. max row) is the last column (resp. last
row). -/
theorem claim_C6_rect_cover (inputs : List ℤ) (target : String)
    (rows cols width height : ℕ) (hr1 : 1 ≤ rows) (hc1 : 1 ≤ cols)
    (hne : inputs ≠ [])
    (hin : ∀ r ∈ inputs, 1 ≤ r ∧ r ≤ (rows : ℤ) * (cols : ℤ)) :
    (∀ r ∈ inputs,
      (rectCoverFromRegions ⟨.list inputs, 0, target⟩ rows cols width height).minRow ≤
          (regionRowCol r rows cols).1 ∧
        (regionRowCol r rows cols).1 ≤
          (rectCoverFromRegions ⟨.list inputs, 0, target⟩ rows cols width height).maxRow ∧
        (rectCoverFromRegions ⟨.list inputs, 0, target⟩ rows cols width height).minCol ≤
          (regionRowCol r rows cols).2 ∧
        (regionRowCol r rows cols).2 ≤
          (rectCoverFromRegions ⟨.list inputs, 0, target⟩ rows cols width height).maxCol) ∧
    ((rectCoverFromRegions ⟨.list inputs, 0, target⟩ rows cols width height).maxCol =
        cols - 1 →
      (rectCoverFromRegions ⟨.list inputs, 0, target⟩ rows cols width height).box.right =
        width) ∧
    ((rectCoverFromRegions ⟨.list inputs, 0, target⟩ rows cols width height).maxRow =
        rows - 1 →
      (rectCoverFromRegions ⟨.list inputs, 0, target⟩ rows cols width height).box.bottom =
        height) := by
  refine ⟨?_, ?_, ?_⟩
  · intro r hr
    obtain ⟨n, hn, heq⟩ :=
      normalizedRegions_cover inputs target rows cols hr1 hc1 hin r hr
    have hmemPair : regionRowCol (n : ℤ) rows cols ∈
        (normalizedRegions ⟨.list inputs, 0, target⟩ rows cols).map
          (fun (x : ℕ) => regionRowCol (x : ℤ) rows cols) :=
      List.mem_map_of_mem _ hn
    have hfst : (regionRowCol (n : ℤ) rows cols).1 ∈
        ((normalizedRegions ⟨.list inputs, 0, target⟩ rows cols).map
          (fun (x : ℕ) => regionRowCol (x : ℤ) rows cols)).map Prod.fst :=
      List.mem_map_of_mem _ hmemPair
    have hsnd : (regionRowCol (n : ℤ) rows cols).2 ∈
        ((normalizedRegions ⟨.list inputs, 0, target⟩ rows cols).map
          (fun (x : ℕ) => regionRowCol (x : ℤ) rows cols)).map Prod.snd :=
      List.mem_map_of_mem _ hmemPair
    refine ⟨?_, ?_, ?_, ?_⟩
    · rw [rectCover_minRow_eq, ← heq]
      exact listMinN_le hfst
    · rw [rectCover_maxRow_eq, ← heq]
      exact le_listMaxN hfst
    · rw [rectCover_minCol_eq, ← heq]
      exact listMinN_le hsnd
    · rw [rectCover_maxCol_eq, ← heq]
      exact le_listMaxN hsnd
  · intro h
    rw [rectCover_boxRight_eq, if_pos h]
  · intro h
    rw [rectCover_boxBottom_eq, if_pos h]

/-- C6 witness: the theorem applied to regions `[2, 6]` of a 3×3 grid on a
1080×2340 frame. -/
theorem claim_C6_witness :
    (∀ r ∈ ([2, 6] : List ℤ),
      (rectCoverFromRegions ⟨.list [2, 6], 0, "send button"⟩ 3 3 1080 2340).minRow ≤
          (regionRowCol r 3 3).1 ∧
        (regionRowCol r 3 3).1 ≤
          (rectCoverFromRegions ⟨.list [2, 6], 0, "send button"⟩ 3 3 1080 2340).maxRow ∧
        (rectCoverFromRegions ⟨.list [2, 6], 0, "send button"⟩ 3 3 1080 2340).minCol ≤
          (regionRowCol r 3 3).2 ∧
        (regionRowCol r 3 3).2 ≤
          (rectCoverFromRegions ⟨.list [2, 6], 0, "send button"⟩ 3 3 1080 2340).maxCol) ∧
    ((rectCoverFromRegions ⟨.list [2, 6], 0, "send button"⟩ 3 3 1080 2340).maxCol =
        3 - 1 →
      (rectCoverFromRegions ⟨.list [2, 6], 0, "send button"⟩ 3 3 1080 2340).box.right =
        1080) ∧
    ((rectCoverFromRegions ⟨.list [2, 6], 0, "send button"⟩ 3 3 1080 2340).maxRow =
        3 - 1 →
      (rectCoverFromRegions ⟨.list [2, 6], 0, "send button"⟩ 3 3 1080 2340).box.bottom =
        2340) :=
  claim_C6_rect_cover [2, 6] "send button" 3 3 1080 2340 (by decide) (by decide)
    (by decide) (by decide)

/-- C7 (amended): for every region index in `[1, rows*cols]` and ratios in
`[0,1]`, whenever the region's pixel box is at least 2 pixels wide and
2 pixels tall, the pixel point computed from the region and ratios lies
inside that region's pixel box: `left ≤ x < right` and `top ≤ y < bottom`.
(For 1-pixel-wide boxes — `cell_w = width // cols = 1` — a ratio of 1 puts
the point on the box's right/bottom edge, refuting the unrestricted claim.) -/
theorem claim_C7_point_in_box (region : ℤ) (rows cols width height : ℕ)
    (xr yr : ℚ)
    (hreg1 : 1 ≤ region) (hreg2 : region ≤ (rows : ℤ) * (cols : ℤ))
    (hx0 : 0 ≤ xr) (hx1 : xr ≤ 1) (hy0 : 0 ≤ yr) (hy1 : yr ≤ 1)
    (hw2 : (regionBox region rows cols width height).left + 2 ≤
      (regionBox region rows cols width height).right)
    (hh2 : (regionBox region rows cols width height).top + 2 ≤
      (regionBox region rows cols width height).bottom) :
    ((regionBox region rows cols width height).left : ℤ) ≤
        ( pointFromRegionRatio region rows cols width height xr yr).1 ∧
      ( pointFromRegionRatio region rows cols width height xr yr).1 <
        ((regionBox region rows cols width height).right : ℤ) ∧
      ((regionBox region rows cols width height).top : ℤ) ≤
        ( pointFromRegionRatio region rows cols width height xr yr).2 ∧
      ( pointFromRegionRatio region rows cols width height xr yr).2 <
        ((regionBox region rows cols width height).bottom : ℤ) := by
  have hxr : max 0 (min 1 xr) = xr := by
    rw [min_eq_right hx1, max_eq_right hx0]
  have hyr : max 0 (min 1 yr) = yr := by
    rw [min_eq_right hy1, max_eq_right hy0]
  set b := regionBox region rows cols width height with hb
  have hwmax : max 1 ((b.right : ℤ) - (b.left : ℤ) - 1) =
      (b.right : ℤ) - (b.left : ℤ) - 1 := by
    rw [max_eq_right]; omega
  have hhmax : max 1 ((b.bottom : ℤ) - (b.top : ℤ) - 1) =
      (b.bottom : ℤ) - (b.top : ℤ) - 1 := by
    rw [max_eq_right]; omega
  have hpoint : pointFromRegionRatio region rows cols width height xr yr =
      ((b.left : ℤ) + ⌊xr * (((b.right : ℤ) - (b.left : ℤ) - 1 : ℤ) : ℚ)⌋,
       (b.top : ℤ) + ⌊yr * (((b.bottom : ℤ) - (b.top : ℤ) - 1 : ℤ) : ℚ)⌋) := by
    rw [ pointFromRegionRatio]
    rw [← hb, hxr, hyr, hwmax, hhmax]
  rw [hpoint]
  have hxfloor0 : (0 : ℤ) ≤ ⌊xr * (((b.right : ℤ) - (b.left : ℤ) - 1 : ℤ) : ℚ)⌋ := by
    apply Int.floor_nonneg.mpr
    apply mul_nonneg hx0
    have : (1 : ℤ) ≤ (b.right : ℤ) - (b.left : ℤ) - 1 := by omega
    exact_mod_cast le_trans zero_le_one this
  have hxfloor1 : ⌊xr * (((b.right : ℤ) - (b.left : ℤ) - 1 : ℤ) : ℚ)⌋ ≤
      (b.right : ℤ) - (b.left : ℤ) - 1 := by
    have hle : xr * (((b.right : ℤ) - (b.left : ℤ) - 1 : ℤ) : ℚ) ≤
        (((b.right : ℤ) - (b.left : ℤ) - 1 : ℤ) : ℚ) := by
      have hnn : (0 : ℚ) ≤ (((b.right : ℤ) - (b.left : ℤ) - 1 : ℤ) : ℚ) := by
        have : (1 : ℤ) ≤ (b.right : ℤ) - (b.left : ℤ) - 1 := by omega
        exact_mod_cast le_trans zero_le_one this
      calc xr * (((b.right : ℤ) - (b.left : ℤ) - 1 : ℤ) : ℚ) ≤
          1 * (((b.right : ℤ) - (b.left : ℤ) - 1 : ℤ) : ℚ) :=
            mul_le_mul_of_nonneg_right hx1 hnn
        _ = _ := one_mul _
    calc ⌊xr * (((b.right : ℤ) - (b.left : ℤ) - 1 : ℤ) : ℚ)⌋ ≤
        ⌊(((b.right : ℤ) - (b.left : ℤ) - 1 : ℤ) : ℚ)⌋ := Int.floor_le_floor hle
      _ = (b.right : ℤ) - (b.left : ℤ) - 1 := Int.floor_intCast _
  have hyfloor0 : (0 : ℤ) ≤ ⌊yr * (((b.bottom : ℤ) - (b.top : ℤ) - 1 : ℤ) : ℚ)⌋ := by
    apply Int.floor_nonneg.mpr
    apply mul_nonneg hy0
    have : (1 : ℤ) ≤ (b.bottom : ℤ) - (b.top : ℤ) - 1 := by omega
    exact_mod_cast le_trans zero_le_one this
  have hyfloor1 : ⌊yr * (((b.bottom : ℤ) - (b.top : ℤ) - 1 : ℤ) : ℚ)⌋ ≤
      (b.bottom : ℤ) - (b.top : ℤ) - 1 := by
    have hle : yr * (((b.bottom : ℤ) - (b.top : ℤ) - 1 : ℤ) : ℚ) ≤
        (((b.bottom : ℤ) - (b.top : ℤ) - 1 : ℤ) : ℚ) := by
      have hnn : (0 : ℚ) ≤ (((b.bottom : ℤ) - (b.top : ℤ) - 1 : ℤ) : ℚ) := by
        have : (1 : ℤ) ≤ (b.bottom : ℤ) - (b.top : ℤ) - 1 := by omega
        exact_mod_cast le_trans zero_le_one this
      calc yr * (((b.bottom : ℤ) - (b.top : ℤ) - 1 : ℤ) : ℚ) ≤
          1 * (((b.bottom : ℤ) - (b.top : ℤ) - 1 : ℤ) : ℚ) :=
            mul_le_mul_of_nonneg_right hy1 hnn
        _ = _ := one_mul _
    calc ⌊yr * (((b.bottom : ℤ) - (b.top : ℤ) - 1 : ℤ) : ℚ)⌋ ≤
        ⌊(((b.bottom : ℤ) - (b.top : ℤ) - 1 : ℤ) : ℚ)⌋ := Int.floor_le_floor hle
      _ = (b.bottom : ℤ) - (b.top : ℤ) - 1 := Int.floor_intCast _
  refine ⟨by omega, by omega, by omega, by omega⟩

/-- C7 counterexample: on a 4×4 frame with the minimal 3×3 grid, region 1
(in `[1, 9]`) has the 1-pixel box `(0,0)-(1,1)`; with ratios `(1,1)` the
computed point is `(1,1)`, which is not strictly left of `right = 1`, so the
unrestricted claim fails. -/
theorem claim_C7_counterexample :
    regionBox 1 3 3 4 4 = ⟨0, 0, 1, 1⟩ ∧
    pointFromRegionRatio 1 3 3 4 4 1 1 = (1, 1) ∧
    ¬(( pointFromRegionRatio 1 3 3 4 4 1 1).1 <
        ((regionBox 1 3 3 4 4).right : ℤ)) := by
  refine ⟨by decide, ?_, ?_⟩
  · norm_num [ pointFromRegionRatio, regionBox, regionIndex, clamp]
  · norm_num [ pointFromRegionRatio, regionBox, regionIndex, clamp]

/-- C7 witness: the amended theorem applied to region 5 of a 3×3 grid on a
1080×2340 frame with centre ratios. -/
theorem claim_C7_witness :
    ((regionBox 5 3 3 1080 2340).left : ℤ) ≤
        ( pointFromRegionRatio 5 3 3 1080 2340 (1 / 2) (1 / 2)).1 ∧
      ( pointFromRegionRatio 5 3 3 1080 2340 (1 / 2) (1 / 2)).1 <
        ((regionBox 5 3 3 1080 2340).right : ℤ) ∧
      ((regionBox 5 3 3 1080 2340).top : ℤ) ≤
        ( pointFromRegionRatio 5 3 3 1080 2340 (1 / 2) (1 / 2)).2 ∧
      ( pointFromRegionRatio 5 3 3 1080 2340 (1 / 2) (1 / 2)).2 <
        ((regionBox 5 3 3 1080 2340).bottom : ℤ) :=
  claim_C7_point_in_box 5 3 3 1080 2340 (1 / 2) (1 / 2)
    (by decide) (by decide) (by norm_num) (by norm_num) (by norm_num)
    (by norm_num) (by decide) (by decide)

/-- C8: for every non-negative similarity threshold, the state comparator
reports two identical UI states as "same", and reports any pair of states
with different sources as "different" regardless of their content. -/
theorem claim_C8_state_comparator (thr : ℤ) (hthr : 0 ≤ thr) :
    (∀ s : UiState, (statesSimilar (some s) (some s) thr).1 = true) ∧
    (∀ s t : UiState, s.source ≠ t.source →
      (statesSimilar (some s) (some t) thr).1 = false) := by
  constructor
  · intro s
    unfold statesSimilar
    dsimp only
    rw [if_neg (by simp)]
    by_cases hxml : s.source = "xml"
    · rw [if_pos hxml, if_pos rfl]
    · rw [if_neg hxml]
      cases hah : s.screenAhash with
      | none => simp
      | some a =>
        simp only
        have hdist : hammingDistance a a = 0 := by
          unfold hammingDistance
          rw [Nat.xor_self]
          rfl
        rw [hdist]
        simpa using hthr
  · intro s t hst
    unfold statesSimilar
    dsimp only
    rw [if_pos hst]

/-- C8 witness: the theorem applied at threshold 6 (the default
`screenshot_ahash_threshold`), a concrete screenshot state and a concrete
xml state. -/
theorem claim_C8_witness :
    (statesSimilar (some ⟨"screenshot", "", "img", "shot:abc", some 13⟩)
      (some ⟨"screenshot", "", "img", "shot:abc", some 13⟩) 6).1 = true ∧
    (statesSimilar (some ⟨"xml", "<hierarchy/>", "", "sig1", none⟩)
      (some ⟨"screenshot", "", "img", "shot:abc", some 13⟩) 6).1 = false :=
  ⟨(claim_C8_state_comparator 6 (by decide)).1 _,
   (claim_C8_state_comparator 6 (by decide)).2 _ _ (by decide)⟩

theorem tapRetryLoop_all_same (click : ℕ → Bool × String) (after : ℕ → UiState)
    (base : UiState) (x y xmin ymin xmax ymax thr : ℤ)
    (hsame : ∀ i, (statesSimilar (some base) (some (after i)) thr).1 = true) :
    ∀ (rem i : ℕ) (acc : Bool) (lb : String) (fp : ℤ × ℤ)
      (att : List (ℤ × ℤ)),
      (tapRetryLoop click after base x y xmin ymin xmax ymax thr
          rem i acc lb fp att).attempted.length = att.length + rem ∧
      (tapRetryLoop click after base x y xmin ymin xmax ymax thr
          rem i acc lb fp att).changed = false ∧
      ((tapRetryLoop click after base x y xmin ymin xmax ymax thr
          rem i acc lb fp att).anySuccess = true ↔
        acc = true ∨ ∃ j, i ≤ j ∧ j < i + rem ∧ (click j).1 = true) := by
  intro rem
  induction rem with
  | zero =>
    intro i acc lb fp att
    refine ⟨rfl, rfl, ?_⟩
    constructor
    · intro h; exact Or.inl h
    · rintro (h | ⟨j, hj1, hj2, _⟩)
      · exact h
      · omega
  | succ rem ih =>
    intro i acc lb fp att
    unfold tapRetryLoop
    dsimp only
    cases hok : (click i).1 with
    | true =>
      rw [if_pos rfl, hsame i, if_pos rfl]
      refine ⟨?_, (ih _ _ _ _ _).2.1, ?_⟩
      · rw [(ih _ _ _ _ _).1]
        simp only [List.length_append, List.length_singleton]
        omega
      · rw [(ih _ _ _ _ _).2.2]
        constructor
        · intro _
          exact Or.inr ⟨i, le_refl i, by omega, hok⟩
        · intro _
          exact Or.inl rfl
    | false =>
      rw [if_neg (by simp)]
      refine ⟨?_, (ih _ _ _ _ _).2.1, ?_⟩
      · rw [(ih _ _ _ _ _).1]
        simp only [List.length_append, List.length_singleton]
        omega
      · rw [(ih _ _ _ _ _).2.2]
        constructor
        · rintro (h | ⟨j, h1, h2, h3⟩)
          · exact Or.inl h
          · exact Or.inr ⟨j, by omega, by omega, h3⟩
        · rintro (h | ⟨j, h1, h2, h3⟩)
          · exact Or.inl h
          · by_cases hji : j = i
            · subst hji
              rw [hok] at h3
              exact absurd h3 (by simp)
            · exact Or.inr ⟨j, by omega, by omega, h3⟩

/-- C5: if every post-tap UI state compares equal to the pre-tap state, the
tap executor performs exactly `min(max_retry + 1, 7)` tap attempts — a
transport failure on one offset does not abort the ladder — reports
`ui_changed = false`, and reports overall success exactly when at least one
transport-level tap succeeded. -/
theorem claim_C5_tap_executor (click : ℕ → Bool × String) (after : ℕ → UiState)
    (base : UiState) (x y xmin ymin xmax ymax thr : ℤ) (maxRetry : ℕ)
    (hsame : ∀ i, (statesSimilar (some base) (some (after i)) thr).1 = true) :
    (tapWithRetry click after base x y xmin ymin xmax ymax thr
        maxRetry).attempted.length = min (maxRetry + 1) 7 ∧
      (tapWithRetry click after base x y xmin ymin xmax ymax thr
        maxRetry).changed = false ∧
      ((tapWithRetry click after base x y xmin ymin xmax ymax thr
          maxRetry).anySuccess = true ↔
        ∃ i, i < min (maxRetry + 1) 7 ∧ (click i).1 = true) := by
  obtain ⟨h1, h2, h3⟩ := tapRetryLoop_all_same click after base x y
    xmin ymin xmax ymax thr hsame
    (min (maxRetry + 1) tapOffsets.length) 0 false "" (x, y) []
  unfold tapWithRetry
  have hlen : tapOffsets.length = 7 := rfl
  refine ⟨?_, h2, ?_⟩
  · rw [h1, hlen]
    simp
  · rw [h3, hlen]
    constructor
    · rintro (h | ⟨j, _, hj2, hj3⟩)
      · exact absurd h (by simp)
      · exact ⟨j, by omega, hj3⟩
    · rintro ⟨j, hj1, hj2⟩
      exact Or.inr ⟨j, by omega, by omega, hj2⟩

/-- C5 witness: the theorem applied to a concrete never-changing UI (ahash 13
throughout, threshold 6), an always-succeeding transport, and
`max_retry = 2`: exactly 3 attempts. -/
theorem claim_C5_witness :
    (tapWithRetry (fun _ => (true, "ok"))
        (fun _ => ⟨"screenshot", "", "", "shot:aa", some 13⟩)
        ⟨"screenshot", "", "", "shot:aa", some 13⟩
        500 900 0 0 1079 2339 6 2).attempted.length = min (2 + 1) 7 ∧
      (tapWithRetry (fun _ => (true, "ok"))
        (fun _ => ⟨"screenshot", "", "", "shot:aa", some 13⟩)
        ⟨"screenshot", "", "", "shot:aa", some 13⟩
        500 900 0 0 1079 2339 6 2).changed = false ∧
      ((tapWithRetry (fun _ => (true, "ok"))
          (fun _ => ⟨"screenshot", "", "", "shot:aa", some 13⟩)
          ⟨"screenshot", "", "", "shot:aa", some 13⟩
          500 900 0 0 1079 2339 6 2).anySuccess = true ↔
        ∃ i, i < min (2 + 1) 7 ∧
          (((fun (_ : ℕ) => (true, "ok")) i).1 = true)) := by
  have h := claim_C5_tap_executor (fun _ => (true, "ok"))
    (fun _ => ⟨"screenshot", "", "", "shot:aa", some 13⟩)
    ⟨"screenshot", "", "", "shot:aa", some 13⟩
    500 900 0 0 1079 2339 6 2
    (by
      intro i
      show (statesSimilar (some ⟨"screenshot", "", "", "shot:aa", some 13⟩)
        (some ⟨"screenshot", "", "", "shot:aa", some 13⟩) 6).1 = true
      decide)
  exact h

theorem sub_abs_le_abs_add (a d : ℤ) : d - |a| ≤ |a + d| := by
  have h1 := abs_add (a + d) (-a)
  have he : a + d + -a = d := by ring
  rw [he, abs_neg] at h1
  have h2 := le_abs_self d
  linarith

theorem sub_abs_le_abs_sub (a d : ℤ) : d - |a| ≤ |a - d| := by
  have h := sub_abs_le_abs_add (-a) d
  rw [abs_neg] at h
  have he : -a + d = -(a - d) := by ring
  rw [he, abs_neg] at h
  exact h

/-- C4 (amended): when the same-UI streak is at least 1, a last tap point is
recorded, and the model's new tap target is closer than `min_tap_drift_px`
(Manhattan) to it, then — provided some axis has full headroom for the
nudge — the adjusted target differs from the last tap point by at least
`min_drift − original distance` in Manhattan distance, which is strictly
positive; it is NOT guaranteed to differ by the full `min_drift` (the nudge
is applied to the model's target, not to the last tap point, so a target
offset opposite to the nudge direction loses up to the original distance). -/
theorem claim_C4_drift_guard (streak : ℕ) (lx ly tx ty d xmin ymin xmax ymax : ℤ)
    (hstreak : 1 ≤ streak) (hclose : |tx - lx| + |ty - ly| < d)
    (hroom : tx + d ≤ xmax ∨ xmin ≤ tx - d ∨ ty + d ≤ ymax ∨ ymin ≤ ty - d) :
    d - (|tx - lx| + |ty - ly|) ≤
      |(driftAdjust streak (some (lx, ly)) tx ty d xmin ymin xmax ymax).1 - lx| +
        |(driftAdjust streak (some (lx, ly)) tx ty d xmin ymin xmax ymax).2 - ly| ∧
    0 < |(driftAdjust streak (some (lx, ly)) tx ty d xmin ymin xmax ymax).1 - lx| +
        |(driftAdjust streak (some (lx, ly)) tx ty d xmin ymin xmax ymax).2 - ly| := by
  unfold driftAdjust
  dsimp only
  rw [if_pos hstreak, if_pos hclose]
  have hx0 := abs_nonneg (tx - lx)
  have hy0 := abs_nonneg (ty - ly)
  by_cases h1 : tx + d ≤ xmax
  · rw [if_pos h1]
    dsimp only
    have he : tx + d - lx = (tx - lx) + d := by ring
    rw [he]
    have hb := sub_abs_le_abs_add (tx - lx) d
    constructor <;> linarith
  · rw [if_neg h1]
    by_cases h2 : xmin ≤ tx - d
    · rw [if_pos h2]
      dsimp only
      have he : tx - d - lx = (tx - lx) - d := by ring
      rw [he]
      have hb := sub_abs_le_abs_sub (tx - lx) d
      constructor <;> linarith
    · rw [if_neg h2]
      by_cases h3 : ty + d ≤ ymax
      · rw [if_pos h3]
        dsimp only
        have he : ty + d - ly = (ty - ly) + d := by ring
        rw [he]
        have hb := sub_abs_le_abs_add (ty - ly) d
        constructor <;> linarith
      · rw [if_neg h3]
        dsimp only
        have h4 : ymin ≤ ty - d := by tauto
        rw [max_eq_right h4]
        have he : ty - d - ly = (ty - ly) - d := by ring
        rw [he]
        have hb := sub_abs_le_abs_sub (ty - ly) d
        constructor <;> linarith

/-- C4 counterexample: streak 1, last tap `(400,900)`, model target
`(370,900)` (Manhattan distance 30 < 50), default click range.  The guard
nudges to `(420,900)`, which clamps to itself and is executed, yet its
Manhattan distance from the last tap is 20 < 50, refuting "differs by at
least the minimum drift". -/
theorem claim_C4_counterexample :
    driftAdjust 1 (some (400, 900)) 370 900 50 0 0 1079 2339 = (420, 900) ∧
    (clip 420 0 1079, clip 900 0 2339) = (420, 900) ∧
    |(420 : ℤ) - 400| + |(900 : ℤ) - 900| < 50 := by
  refine ⟨by decide, by decide, by decide⟩

/-- C4 witness: the amended theorem on the spec's scenario — a repeated tap
exactly at the last tap point `(400,900)` with streak 1; the nudge moves it
50px right, and the guaranteed bound `50 − 0 ≤ distance` holds. -/
theorem claim_C4_witness :
    (50 : ℤ) - (|(400 : ℤ) - 400| + |(900 : ℤ) - 900|) ≤
      |(driftAdjust 1 (some (400, 900)) 400 900 50 0 0 1079 2339).1 - 400| +
        |(driftAdjust 1 (some (400, 900)) 400 900 50 0 0 1079 2339).2 - 900| ∧
    0 < |(driftAdjust 1 (some (400, 900)) 400 900 50 0 0 1079 2339).1 - 400| +
        |(driftAdjust 1 (some (400, 900)) 400 900 50 0 0 1079 2339).2 - 900| :=
  claim_C4_drift_guard 1 400 900 400 900 50 0 0 1079 2339 (by decide) (by decide)
    (Or.inl (by decide))

theorem waitSeconds_bounds (d : String) :
    1 ≤ waitSeconds d ∧ waitSeconds d ≤ 15 := by
  unfold waitSeconds
  dsimp only
  omega

/-- C9: the function-call answer parser is total — for every input string it
returns one of the six action kinds (tap, swipe, type, wait, finish,
invalid) — every Wait intent has seconds clamped into `[1, 15]`, and the
seconds default to 2 when the duration text contains no digits. -/
theorem claim_C9_parse_action_total (s : String) :
    ((∃ x y, parseAction s = .tap x y) ∨
      (∃ sx sy ex ey dm, parseAction s = .swipe sx sy ex ey dm) ∨
      (∃ t e, parseAction s = .typeText t e) ∨
      (∃ n, parseAction s = .wait n) ∨
      (∃ m, parseAction s = .finish m) ∨
      (∃ r reason, parseAction s = .invalid r reason)) ∧
    (∀ n, parseAction s = .wait n → 1 ≤ n ∧ n ≤ 15) ∧
    (∀ dur : String, (digitRuns dur).head? = none → waitSeconds dur = 2) := by
  refine ⟨?_, ?_, ?_⟩
  · cases h : parseAction s with
    | tap x y => exact Or.inl ⟨x, y, rfl⟩
    | swipe sx sy ex ey dm => exact Or.inr (Or.inl ⟨sx, sy, ex, ey, dm, rfl⟩)
    | typeText t e => exact Or.inr (Or.inr (Or.inl ⟨t, e, rfl⟩))
    | wait n => exact Or.inr (Or.inr (Or.inr (Or.inl ⟨n, rfl⟩)))
    | finish m => exact Or.inr (Or.inr (Or.inr (Or.inr (Or.inl ⟨m, rfl⟩))))
    | invalid r reason =>
        exact Or.inr (Or.inr (Or.inr (Or.inr (Or.inr ⟨r, reason, rfl⟩))))
  · intro n h
    simp only [parseAction] at h
    repeat' split at h
    all_goals
      first
        | (injection h with hn
           exact hn ▸ waitSeconds_bounds _)
        | exact absurd h (by simp)
  · intro dur hnod
    unfold waitSeconds
    rw [hnod]
    rfl

/-- C9 witness: the theorem's Wait clamp applied to a parsed
`duration="99 seconds"` answer (seconds clamp to 15), and the digit-free
default applied to `"soon"`. -/
theorem claim_C9_witness :
    ((1 : ℤ) ≤ 15 ∧ (15 : ℤ) ≤ 15) ∧ waitSeconds "soon" = 2 :=
  ⟨(claim_C9_parse_action_total
      "do(action=\"Wait\", duration=\"99 seconds\")").2.1 15 (by decide),
   (claim_C9_parse_action_total "x").2.2 "soon" (by decide)⟩

theorem lastTap_trace_spec (trace : List (AgentAction × (ℤ × ℤ))) (pt : ℤ × ℤ)
    (h : trace.foldl (fun acc step => updateLastTap acc step.1 step.2) none =
      some pt) :
    ∃ pre x y post,
      trace = pre ++ (AgentAction.tap x y, pt) :: post ∧
        ∀ st ∈ post, nonExecuting st.1 := by
  induction trace using List.reverseRecOn with
  | nil => cases h
  | append_singleton l a ih =>
    rw [List.foldl_append] at h
    obtain ⟨act, fp⟩ := a
    cases hact : act with
    | tap x y =>
      rw [hact] at h
      simp only [updateLastTap, List.foldl_cons, List.foldl_nil] at h
      cases h
      exact ⟨l, x, y, [], by simp, by simp⟩
    | swipe sx sy ex ey dm =>
      rw [hact] at h
      simp only [updateLastTap, List.foldl_cons, List.foldl_nil] at h
      cases h
    | typeText t e =>
      rw [hact] at h
      simp only [updateLastTap, List.foldl_cons, List.foldl_nil] at h
      cases h
    | wait n =>
      rw [hact] at h
      simp only [updateLastTap, List.foldl_cons, List.foldl_nil] at h
      cases h
    | finish m =>
      rw [hact] at h
      simp only [updateLastTap, List.foldl_cons, List.foldl_nil] at h
      obtain ⟨pre, x, y, post, heq, hpost⟩ := ih h
      refine ⟨pre, x, y, post ++ [(AgentAction.finish m, fp)], ?_, ?_⟩
      · rw [heq]
        simp
      · intro st hst
        rcases List.mem_append.mp hst with h2 | h2
        · exact hpost st h2
        · rcases List.mem_singleton.mp h2 with rfl
          exact Or.inr ⟨m, rfl⟩
    | invalid r reason =>
      rw [hact] at h
      simp only [updateLastTap, List.foldl_cons, List.foldl_nil] at h
      obtain ⟨pre, x, y, post, heq, hpost⟩ := ih h
      refine ⟨pre, x, y, post ++ [(AgentAction.invalid r reason, fp)], ?_, ?_⟩
      · rw [heq]
        simp
      · intro st hst
        rcases List.mem_append.mp hst with h2 | h2
        · exact hpost st h2
        · rcases List.mem_singleton.mp h2 with rfl
          exact Or.inl ⟨r, reason, rfl⟩

/-- C10: in the episode loop, executing swipe/type/wait resets the stored
last tap point to `None` while a tap stores its final attempted point; an
unrecovered invalid answer leaves it unchanged.  Consequently, whenever the
folded last-tap state is set, the trace decomposes as a prefix, a final tap
at that point, and a suffix of non-executing steps — so the minimum-drift
loop guard (which requires a stored last tap point) can only fire when the
most recent executed device action was a tap. -/
theorem claim_C10_last_tap_invariant :
    (∀ (prev : Option (ℤ × ℤ)) (sx sy ex ey dm : ℤ) (p : ℤ × ℤ),
        updateLastTap prev (.swipe sx sy ex ey dm) p = none) ∧
    (∀ (prev : Option (ℤ × ℤ)) (t : String) (e : Option String) (p : ℤ × ℤ),
        updateLastTap prev (.typeText t e) p = none) ∧
    (∀ (prev : Option (ℤ × ℤ)) (n : ℤ) (p : ℤ × ℤ),
        updateLastTap prev (.wait n) p = none) ∧
    (∀ (prev : Option (ℤ × ℤ)) (x y : ℤ) (p : ℤ × ℤ),
        updateLastTap prev (.tap x y) p = some p) ∧
    (∀ (trace : List (AgentAction × (ℤ × ℤ))) (pt : ℤ × ℤ),
        trace.foldl (fun acc step => updateLastTap acc step.1 step.2) none =
          some pt →
        ∃ pre x y post,
          trace = pre ++ (AgentAction.tap x y, pt) :: post ∧
            ∀ st ∈ post, nonExecuting st.1) ∧
    (∀ (streak : ℕ) (lastTap : Option (ℤ × ℤ)) (tx ty dmin : ℤ),
        driftGuardFires streak lastTap tx ty dmin = true →
        ∃ q, lastTap = some q) := by
  refine ⟨fun _ _ _ _ _ _ _ => rfl, fun _ _ _ _ => rfl, fun _ _ _ => rfl,
    fun _ _ _ _ => rfl, lastTap_trace_spec, ?_⟩
  intro streak lastTap tx ty dmin h
  cases lastTap with
  | none => cases h
  | some q => exact ⟨q, rfl⟩

/-- C10 witness: the trace decomposition applied to a concrete trace
(tap, then unrecovered invalid), and the guard applied to a set last tap. -/
theorem claim_C10_witness :
    (∃ pre x y post,
      ([((AgentAction.tap 400 900 : AgentAction), ((400 : ℤ), (900 : ℤ))),
        (AgentAction.invalid "?" "cannot parse action format", (0, 0))] :
          List (AgentAction × (ℤ × ℤ))).foldl
          (fun acc step => updateLastTap acc step.1 step.2) none =
        some (400, 900) ∧
      ([((AgentAction.tap 400 900 : AgentAction), ((400 : ℤ), (900 : ℤ))),
        (AgentAction.invalid "?" "cannot parse action format", (0, 0))] :
          List (AgentAction × (ℤ × ℤ))) =
        pre ++ (AgentAction.tap x y, ((400 : ℤ), (900 : ℤ))) :: post ∧
        ∀ st ∈ post, nonExecuting st.1) ∧
    (∃ q, (some ((400 : ℤ), (900 : ℤ)) : Option (ℤ × ℤ)) = some q) := by
  constructor
  · obtain ⟨pre, x, y, post, heq, hpost⟩ :=
      claim_C10_last_tap_invariant.2.2.2.2.1
        [((AgentAction.tap 400 900 : AgentAction), ((400 : ℤ), (900 : ℤ))),
         (AgentAction.invalid "?" "cannot parse action format", (0, 0))]
        (400, 900) (by decide)
    exact ⟨pre, x, y, post, by decide, heq, hpost⟩
  · exact claim_C10_last_tap_invariant.2.2.2.2.2 1 (some (400, 900)) 400 900 50
      (by decide)

theorem clamp_mem {v lo hi : ℤ} (h : lo ≤ hi) :
    lo ≤ clamp v lo hi ∧ clamp v lo hi ≤ hi := by
  unfold clamp
  omega

theorem clip_mem {v lo hi : ℤ} (h : lo ≤ hi) :
    lo ≤ clip v lo hi ∧ clip v lo hi ≤ hi := by
  unfold clip
  omega

theorem tapRetryLoop_attempted_range (click : ℕ → Bool × String)
    (after : ℕ → UiState) (base : UiState) (x y xmin ymin xmax ymax thr : ℤ)
    (hx : xmin ≤ xmax) (hy : ymin ≤ ymax) :
    ∀ (rem i : ℕ) (acc : Bool) (lb : String) (fp : ℤ × ℤ)
      (att : List (ℤ × ℤ)),
      (∀ p ∈ att, xmin ≤ p.1 ∧ p.1 ≤ xmax ∧ ymin ≤ p.2 ∧ p.2 ≤ ymax) →
      ∀ p ∈ (tapRetryLoop click after base x y xmin ymin xmax ymax thr
          rem i acc lb fp att).attempted,
        xmin ≤ p.1 ∧ p.1 ≤ xmax ∧ ymin ≤ p.2 ∧ p.2 ≤ ymax := by
  intro rem
  induction rem with
  | zero => intro i acc lb fp att hatt p hp; exact hatt p hp
  | succ rem ih =>
    intro i acc lb fp att hatt p hp
    have hnew : ∀ q ∈ att ++
        [(clip (x + (tapOffsets.getD i (0, 0)).1) xmin xmax,
          clip (y + (tapOffsets.getD i (0, 0)).2) ymin ymax)],
        xmin ≤ q.1 ∧ q.1 ≤ xmax ∧ ymin ≤ q.2 ∧ q.2 ≤ ymax := by
      intro q hq
      rcases List.mem_append.mp hq with h2 | h2
      · exact hatt q h2
      · rcases List.mem_singleton.mp h2 with rfl
        exact ⟨(clip_mem hx).1, (clip_mem hx).2, (clip_mem hy).1, (clip_mem hy).2⟩
    unfold tapRetryLoop at hp
    dsimp only at hp
    split at hp
    · split at hp
      · exact ih _ _ _ _ _ hnew p hp
      · exact hnew p hp
    · exact ih _ _ _ _ _ hnew p hp

/-- C2 (amended): the controller's tap point and swipe endpoints are clamped
into the click range before being sent, and every point the agent's tap
ladder clicks is clipped into the click range; but the agent's swipe
executor passes the model-supplied coordinates to the swipe endpoint
unmodified, so agent swipes are not confined to the click range (see the
counterexample). -/
theorem claim_C2_click_range (xrRaw yrRaw : ℚ) (box : PixelBox)
    (sx sy ex ey : ℤ) (click : ℕ → Bool × String) (after : ℕ → UiState)
    (base : UiState) (x y xmin ymin xmax ymax thr : ℤ) (maxRetry : ℕ)
    (hx : xmin ≤ xmax) (hy : ymin ≤ ymax) :
    (xmin ≤ (controllerTapPoint xrRaw yrRaw box xmin ymin xmax ymax).1 ∧
      (controllerTapPoint xrRaw yrRaw box xmin ymin xmax ymax).1 ≤ xmax ∧
      ymin ≤ (controllerTapPoint xrRaw yrRaw box xmin ymin xmax ymax).2 ∧
      (controllerTapPoint xrRaw yrRaw box xmin ymin xmax ymax).2 ≤ ymax) ∧
    (xmin ≤ (controllerSwipeClamped sx sy ex ey xmin ymin xmax ymax).1.1 ∧
      (controllerSwipeClamped sx sy ex ey xmin ymin xmax ymax).1.1 ≤ xmax ∧
      ymin ≤ (controllerSwipeClamped sx sy ex ey xmin ymin xmax ymax).1.2 ∧
      (controllerSwipeClamped sx sy ex ey xmin ymin xmax ymax).1.2 ≤ ymax ∧
      xmin ≤ (controllerSwipeClamped sx sy ex ey xmin ymin xmax ymax).2.1 ∧
      (controllerSwipeClamped sx sy ex ey xmin ymin xmax ymax).2.1 ≤ xmax ∧
      ymin ≤ (controllerSwipeClamped sx sy ex ey xmin ymin xmax ymax).2.2 ∧
      (controllerSwipeClamped sx sy ex ey xmin ymin xmax ymax).2.2 ≤ ymax) ∧
    (∀ p ∈ (tapWithRetry click after base x y xmin ymin xmax ymax thr
        maxRetry).attempted,
      xmin ≤ p.1 ∧ p.1 ≤ xmax ∧ ymin ≤ p.2 ∧ p.2 ≤ ymax) := by
  refine ⟨⟨(clamp_mem hx).1, (clamp_mem hx).2, (clamp_mem hy).1,
      (clamp_mem hy).2⟩,
    ⟨(clamp_mem hx).1, (clamp_mem hx).2, (clamp_mem hy).1, (clamp_mem hy).2,
      (clamp_mem hx).1, (clamp_mem hx).2, (clamp_mem hy).1, (clamp_mem hy).2⟩,
    ?_⟩
  intro p hp
  exact tapRetryLoop_attempted_range click after base x y xmin ymin xmax ymax
    thr hx hy _ _ _ _ _ _ (by intro q hq; cases hq) p hp

/-- C2 counterexample: the model answer
`do(action="Swipe", start=[5000,900], end=[500,1200], durationMs=300)`
parses to a swipe whose start x-coordinate 5000 the agent passes to the
swipe endpoint unmodified, outside the default click range `xMax = 1079`. -/
theorem claim_C2_counterexample :
    parseAction
        "do(action=\"Swipe\", start=[5000,900], end=[500,1200], durationMs=300)" =
      .swipe 5000 900 500 1200 300 ∧
    agentSwipeArgs (.swipe 5000 900 500 1200 300) =
      some (5000, 900, 500, 1200, 300) ∧
    ¬((5000 : ℤ) ≤ 1079) := by
  refine ⟨by decide, by decide, by decide⟩

/-- C2 witness: the amended theorem at the default click range, ratios
`(0.9, 0.2)`, a concrete crop box and raw swipe endpoints. -/
theorem claim_C2_witness :
    ((0 : ℤ) ≤ (controllerTapPoint (9 / 10) (1 / 5) ⟨360, 780, 720, 1560⟩
        0 0 1079 2339).1 ∧
      (controllerTapPoint (9 / 10) (1 / 5) ⟨360, 780, 720, 1560⟩
        0 0 1079 2339).1 ≤ 1079 ∧
      (0 : ℤ) ≤ (controllerTapPoint (9 / 10) (1 / 5) ⟨360, 780, 720, 1560⟩
        0 0 1079 2339).2 ∧
      (controllerTapPoint (9 / 10) (1 / 5) ⟨360, 780, 720, 1560⟩
        0 0 1079 2339).2 ≤ 2339) ∧
    ((0 : ℤ) ≤ (controllerSwipeClamped 5000 900 500 1200 0 0 1079 2339).1.1 ∧
      (controllerSwipeClamped 5000 900 500 1200 0 0 1079 2339).1.1 ≤ 1079 ∧
      (0 : ℤ) ≤ (controllerSwipeClamped 5000 900 500 1200 0 0 1079 2339).1.2 ∧
      (controllerSwipeClamped 5000 900 500 1200 0 0 1079 2339).1.2 ≤ 2339 ∧
      (0 : ℤ) ≤ (controllerSwipeClamped 5000 900 500 1200 0 0 1079 2339).2.1 ∧
      (controllerSwipeClamped 5000 900 500 1200 0 0 1079 2339).2.1 ≤ 1079 ∧
      (0 : ℤ) ≤ (controllerSwipeClamped 5000 900 500 1200 0 0 1079 2339).2.2 ∧
      (controllerSwipeClamped 5000 900 500 1200 0 0 1079 2339).2.2 ≤ 2339) ∧
    (∀ p ∈ (tapWithRetry (fun _ => (true, "ok"))
        (fun _ => ⟨"screenshot", "", "", "shot:aa", some 13⟩)
        ⟨"screenshot", "", "", "shot:aa", some 13⟩
        500 900 0 0 1079 2339 6 2).attempted,
      (0 : ℤ) ≤ p.1 ∧ p.1 ≤ 1079 ∧ (0 : ℤ) ≤ p.2 ∧ p.2 ≤ 2339) :=
  claim_C2_click_range (9 / 10) (1 / 5) ⟨360, 780, 720, 1560⟩ 5000 900 500 1200
    (fun _ => (true, "ok")) (fun _ => ⟨"screenshot", "", "", "shot:aa", some 13⟩)
    ⟨"screenshot", "", "", "shot:aa", some 13⟩ 500 900 0 0 1079 2339 6 2
    (by decide) (by decide)

/-- C1 (amended): for the exact truncated planner text
`{"action":"tap","region":5,"regions":[5,6`, strict JSON extraction fails
and the field-by-field fallback extractor produces `action = "tap"` and
`region = 5` but NO `regions` field — the regions regex requires a closing
bracket.  The unclosed array is instead detected by
`_has_unclosed_regions_array`, which (with at most one region parsed)
triggers the scoped regions-repair request. -/
theorem claim_C1_fallback_truncated :
    extractJson "\x7b\"action\":\"tap\",\"region\":5,\"regions\":[5,6" = none ∧
    (extractPlannerFallback
      "\x7b\"action\":\"tap\",\"region\":5,\"regions\":[5,6").action =
        some "tap" ∧
    (extractPlannerFallback
      "\x7b\"action\":\"tap\",\"region\":5,\"regions\":[5,6").region = some 5 ∧
    (extractPlannerFallback
      "\x7b\"action\":\"tap\",\"region\":5,\"regions\":[5,6").regions = none ∧
    hasUnclosedRegionsArray
      "\x7b\"action\":\"tap\",\"region\":5,\"regions\":[5,6" = true := by
  refine ⟨by rfl, by decide, by decide, by decide, by decide⟩

/-- C1 counterexample: on the claim's exact truncated text the fallback
extractor does NOT produce `regions = [5, 6]` (the field is absent). -/
theorem claim_C1_counterexample :
    ¬((extractPlannerFallback
        "\x7b\"action\":\"tap\",\"region\":5,\"regions\":[5,6").regions =
      some [5, 6]) := by
  decide

end DroidNode
